import Mathlib

/-!
Verification development for the schema-encoding core of the Encore runtime
(`runtimes/core/src/api/schema/encoding.rs`).

The development shallowly embeds the two algorithms of that module:

* generic type resolution (`TypeArgResolver::resolve`, here `Encore.resolve`),
  including its cycle guard over declaration ids;
* wire-location partitioning (`EncodingConfig::compute`, here `Encore.compute`)
  and the per-method-group request encoding (`request_encoding`).

Modelling conventions:

* protobuf `Option` sub-structures are kept as `Option` fields, and every
  `.context(...)?` failure in the source becomes `RErr.err` with the same
  message;
* a Rust panic (an out-of-bounds index, an `unreachable!()`) is a distinct
  outcome `RErr.panicked`: the source does not return it as an error result;
* `Cow<'_, Typ>` is embedded as `CowTyp`, a value together with the flag
  telling whether the source would have returned `Cow::Borrowed`;
* the external collaborators (the jsonschema registry builder and the HTTP
  method classifier) are not part of this module's source; they are modelled
  from the spec where marked, keeping only the structure the claims need.
  The registry builder is threaded explicitly as a value (`Builder`) instead
  of `&mut` state;
* Rust's `HashMap`/`HashSet` are embedded as association lists with
  replace-on-collision insertion; iteration order (arbitrary for Rust's
  `HashMap`) is fixed to insertion order, and every claim about
  `split_by_loc` groups is stated order-insensitively.
-/

namespace Encore

/-- `schema::wire_spec::Location`: the explicit wire location of a field.
`header`/`cookie` carry the optional name override of `wire_spec::Header` /
`wire_spec::Cookie`. -/
inductive Location where
  | header (name : Option String)
  | query
  | cookie (name : Option String)
deriving DecidableEq, Repr

/-- `schema::WireSpec`. -/
structure WireSpec where
  location : Option Location
deriving DecidableEq, Repr

/- `schema::Type` (`SType`), `schema::v1::r#type::Typ` (`Typ`) and
`schema::Field`, mutually. `schema::Struct` is inlined into `Typ.struct` as
its field list. Validation payloads are opaque tokens (`Option Nat`), as are
the payloads of `builtin`, `literal` and `config`: this module only carries
them through. -/
mutual
/-- `schema::Type`: the optional inner `Typ` plus opaque validation. -/
inductive SType where
  | mk (typ : Option Typ) (validation : Option Nat)

/-- `schema::v1::r#type::Typ`: the type tree's tagged union. -/
inductive Typ where
  | named (id : Nat) (type_arguments : List SType)
  | struct (fields : List Field)
  | map (key : Option SType) (value : Option SType)
  | list (elem : Option SType)
  | union (types : List SType)
  | builtin (b : Nat)
  | literal (value : Nat)
  | pointer (base : Option SType)
  | type_parameter (param_idx : Nat)
  | config (c : Nat)

/-- `schema::Field`, reduced to the components this module reads. -/
inductive Field where
  | mk (name : String) (typ : Option SType) (optional : Bool) (wire : Option WireSpec)
end

/-- `schema::Type.typ`. -/
def SType.typ : SType → Option Typ
  | .mk t _ => t

/-- `schema::Type.validation` (opaque token). -/
def SType.validation : SType → Option Nat
  | .mk _ v => v

/-- `schema::Field.name`. -/
def Field.name : Field → String
  | .mk n _ _ _ => n

/-- `schema::Field.typ`. -/
def Field.typ : Field → Option SType
  | .mk _ t _ _ => t

/-- `schema::Field.optional`. -/
def Field.optional : Field → Bool
  | .mk _ _ o _ => o

/-- `schema::Field.wire`. -/
def Field.wire : Field → Option WireSpec
  | .mk _ _ _ w => w

/-- `meta::Decl`: the declaration table entry (`id`, `r#type`). -/
structure Decl where
  id : Nat
  type : Option SType

/-- `meta::Data`, reduced to the declaration table the module reads. -/
structure MetaData where
  decls : List Decl

/-- `meta::PathSegment`: `value`, the `r#type` discriminant (an integer in the
metadata wire format), the declared `value_type` discriminant and the optional
validation. -/
structure PathSegment where
  value : String
  type : Nat
  value_type : Nat
  validation : Option Nat
deriving DecidableEq, Repr

/-- `meta::Path`. -/
structure MetaPath where
  segments : List PathSegment
  type : Nat
deriving DecidableEq, Repr

/-- `meta::path_segment::SegmentType`. -/
inductive SegmentType where
  | literal
  | param
  | wildcard
  | fallback
deriving DecidableEq, Repr

/-- `SegmentType::try_from` on the protobuf discriminant
(`LITERAL = 0, PARAM = 1, WILDCARD = 2, FALLBACK = 3`). -/
def segTypeOf (n : Nat) : Option SegmentType :=
  if n = 0 then some .literal
  else if n = 1 then some .param
  else if n = 2 then some .wildcard
  else if n = 3 then some .fallback
  else none

/-- The discriminant `SegmentType::Literal as i32`. -/
def segLiteralN : Nat := 0

/-- The discriminant `path_segment::ParamType::String as i32`. -/
def paramTypeStringN : Nat := 0

/-- The discriminant `meta::path::Type::Url as i32`. -/
def pathTypeUrlN : Nat := 0

/-- Outcomes of the fallible operations: `err` is an error result returned to
the caller (Rust `anyhow::Error`, built by `.context(...)` or `bail!`);
`panicked` is a Rust panic (an out-of-bounds index or an `unreachable!()`),
which the source never returns as an error result. -/
inductive RErr where
  | err (msg : String)
  | panicked (msg : String)
deriving DecidableEq, Repr

/-- `Cow<'_, Typ>`: the resolved value plus whether the source returned
`Cow::Borrowed` (structural sharing) or `Cow::Owned` (a rebuilt tree). -/
structure CowTyp where
  borrowed : Bool
  val : Typ

/-- `TypeArgResolver`: the declaration table, the binding context of resolved
type arguments, and the stack of declaration ids being expanded (`decls`,
used to detect cycles). -/
structure TypeArgResolver where
  meta : MetaData
  resolved_args : List CowTyp
  decls : List Nat

/-- The rebuild of `Union.types` from resolved cows and the original members'
validation, as in the `Typ::Union` arm of `resolve`. -/
def rebuildTypes (cs : List CowTyp) (ts : List SType) : List SType :=
  (cs.zip ts).map (fun p => SType.mk (some p.1.val) p.2.validation)

/-- Number of distinct declaration ids of the table not yet on the visiting
stack: the quantity that strictly decreases each time `resolve` expands a
`Named` declaration. -/
def idsLeft (meta : MetaData) (visiting : List Nat) : Nat :=
  ((meta.decls.map Decl.id).toFinset.filter (fun i => i ∉ visiting)).card

lemma idsLeft_append_lt {meta : MetaData} {visiting : List Nat} {decl : Decl}
    (h1 : decl ∈ meta.decls) (h2 : decl.id ∉ visiting) :
    idsLeft meta (visiting ++ [decl.id]) < idsLeft meta visiting := by
  have hid : decl.id ∈ (meta.decls.map Decl.id).toFinset := by
    exact List.mem_toFinset.mpr (List.mem_map_of_mem Decl.id h1)
  apply Finset.card_lt_card
  have hsub :
      ((meta.decls.map Decl.id).toFinset.filter (fun j => j ∉ visiting ++ [decl.id])) ⊆
      ((meta.decls.map Decl.id).toFinset.filter (fun j => j ∉ visiting)) := by
    intro x hx
    rw [Finset.mem_filter] at hx ⊢
    exact ⟨hx.1, fun hv => hx.2 (List.mem_append_left _ hv)⟩
  refine (Finset.ssubset_iff_of_subset hsub).mpr ?_
  refine ⟨decl.id, Finset.mem_filter.mpr ⟨hid, h2⟩, ?_⟩
  intro hin
  have := (Finset.mem_filter.mp hin).2
  exact this (List.mem_append_right _ (List.mem_singleton.mpr rfl))

attribute [irreducible] idsLeft

mutual

/-- `TypeArgResolver::resolve`, lines 226-346 of the source. Each arm mirrors
the corresponding `match typ` arm; see the modelling conventions above for
`Option` sub-structures, panics and `Cow`. -/
def resolve (r : TypeArgResolver) (typ : Typ) : Except RErr CowTyp :=
  match typ with
  | Typ.named id type_arguments =>
    -- `let decl = &self.meta.decls[named.id as usize];` — a direct index,
    -- which panics when the id is out of the table's range.
    if hid : id < r.meta.decls.length then
      if r.meta.decls[id].id ∈ r.decls then
        -- Return it unmodified.
        .ok ⟨true, Typ.named id type_arguments⟩
      else
        match resolve_types r type_arguments with
        | .error e => .error e
        | .ok args =>
          match (r.meta.decls[id]).type with
          | none => .error (.err ("decl without type"))
          | some (SType.mk none _) => .error (.err ("type without type"))
          | some (SType.mk (some tt) _) =>
            resolve ⟨r.meta, args, r.decls ++ [(r.meta.decls[id]).id]⟩ tt
    else
      .error (.panicked ("index out of bounds"))
  | Typ.struct fields =>
    match resolve_fields r fields with
    | .error e => .error e
    | .ok fields' => .ok ⟨false, Typ.struct fields'⟩
  | Typ.map none _ => .error (.err ("map without key"))
  | Typ.map (some (SType.mk none _)) _ => .error (.err ("key without type"))
  | Typ.map (some (SType.mk (some _) _)) none => .error (.err ("map without value"))
  | Typ.map (some (SType.mk (some _) _)) (some (SType.mk none _)) =>
    .error (.err ("value without type"))
  | Typ.map (some (SType.mk (some key_typ) kv)) (some (SType.mk (some val_typ) vv)) =>
    match resolve r key_typ with
    | .error e => .error e
    | .ok kc =>
      match resolve r val_typ with
      | .error e => .error e
      | .ok vc =>
        if kc.borrowed && vc.borrowed then
          .ok ⟨true, Typ.map (some (SType.mk (some key_typ) kv))
                             (some (SType.mk (some val_typ) vv))⟩
        else
          .ok ⟨false, Typ.map (some (SType.mk (some kc.val) kv))
                              (some (SType.mk (some vc.val) vv))⟩
  | Typ.list none => .error (.err ("list without elem"))
  | Typ.list (some (SType.mk none _)) => .error (.err ("elem without type"))
  | Typ.list (some (SType.mk (some elem_typ) ev)) =>
    match resolve r elem_typ with
    | .error e => .error e
    | .ok ec =>
      if ec.borrowed then
        .ok ⟨true, Typ.list (some (SType.mk (some elem_typ) ev))⟩
      else
        .ok ⟨false, Typ.list (some (SType.mk (some ec.val) ev))⟩
  | Typ.union types =>
    match resolve_types r types with
    | .error e => .error e
    | .ok cs => .ok ⟨false, Typ.union (rebuildTypes cs types)⟩
  | Typ.builtin b => .ok ⟨true, Typ.builtin b⟩
  | Typ.literal v => .ok ⟨true, Typ.literal v⟩
  | Typ.pointer none => .error (.err ("pointer without base"))
  | Typ.pointer (some (SType.mk none _)) => .error (.err ("base without type"))
  | Typ.pointer (some (SType.mk (some bt) _)) => resolve r bt
  | Typ.type_parameter idx =>
    -- `let typ = &self.resolved_args[idx];` — a direct index.
    match r.resolved_args[idx]? with
    | none => .error (.panicked ("index out of bounds"))
    | some c => .ok c
  | Typ.config _ => .error (.err ("config types are not supported"))
termination_by (idsLeft r.meta r.decls, sizeOf typ)
decreasing_by
  all_goals first
    | exact Prod.Lex.left _ _
        (idsLeft_append_lt (List.getElem_mem _) (by assumption))
    | exact Prod.Lex.right _ (by simp; omega)
    | exact Prod.Lex.right _ (by simp)

/-- `TypeArgResolver::resolve_types`, lines 348-357: each member's inner `Typ`
is required and resolved in order. -/
def resolve_types (r : TypeArgResolver) (types : List SType) : Except RErr (List CowTyp) :=
  match types with
  | [] => .ok []
  | SType.mk none _ :: _ => .error (.err ("type without type"))
  | SType.mk (some tt) _ :: rest =>
    match resolve r tt with
    | .error e => .error e
    | .ok c =>
      match resolve_types r rest with
      | .error e => .error e
      | .ok cs => .ok (c :: cs)
termination_by (idsLeft r.meta r.decls, sizeOf types)
decreasing_by
  all_goals first
    | exact Prod.Lex.right _ (by simp; omega)
    | exact Prod.Lex.right _ (by simp)

/-- The `Typ::Struct` arm's two loops over `strukt.fields` (lines 250-270)
fused into one pass: each field's type is resolved and the field rebuilt with
the resolved type and its original validation (`..field.clone()` keeps name,
optionality and wire spec). -/
def resolve_fields (r : TypeArgResolver) (fields : List Field) : Except RErr (List Field) :=
  match fields with
  | [] => .ok []
  | Field.mk _ none _ _ :: _ => .error (.err ("field without type"))
  | Field.mk _ (some (SType.mk none _)) _ _ :: _ => .error (.err ("type without type"))
  | Field.mk nm (some (SType.mk (some tt) v)) opt w :: rest =>
    match resolve r tt with
    | .error e => .error e
    | .ok c =>
      match resolve_fields r rest with
      | .error e => .error e
      | .ok rest' => .ok (Field.mk nm (some (SType.mk (some c.val) v)) opt w :: rest')
termination_by (idsLeft r.meta r.decls, sizeOf fields)
decreasing_by
  all_goals first
    | exact Prod.Lex.right _ (by simp; omega)
    | exact Prod.Lex.right _ (by simp)

end

/-- `resolve_type` (line 207): resolution from an empty binding context and an
empty visiting stack. -/
def resolve_type (meta : MetaData) (typ : Typ) : Except RErr CowTyp :=
  resolve ⟨meta, [], []⟩ typ

/-- `DefaultLoc`: the default location the caller's context supplies for a
field with no explicit wire spec. -/
inductive DefaultLoc where
  | Body
  | Query
deriving DecidableEq, Repr

/-- `WireLoc`: the resolved placement of one field. -/
inductive WireLoc where
  | body
  | query
  | header (name : String)
  | path
  | cookie (name : String)
deriving DecidableEq, Repr

/-- `DefaultLoc::into_wire_loc`. -/
def DefaultLoc.into_wire_loc : DefaultLoc → WireLoc
  | .Body => WireLoc.body
  | .Query => WireLoc.query

/-- Modelled from the spec: the jsonschema registrar's interned field value
(`jsonschema::Field`), of which this module only sets `name_override`; the
rest is kept as the source `Field`. -/
structure BField where
  src : Field
  name_override : Option String

/-- Modelled from the spec: the Schema Registrar's
`struct_field(Field) -> (name, value)` collaborator, interning a struct field
under its name. -/
def struct_field (f : Field) : String × BField :=
  (f.name, ⟨f, none⟩)

/-- `jsonschema::Struct`: a map from field names to interned fields, embedded
as an association list with replace-on-collision insertion (`HashMap`
semantics). -/
structure JStruct where
  fields : List (String × BField)

/-- `HashMap::insert`: replace the value when the key is present, append
otherwise. -/
def insertField (l : List (String × BField)) (k : String) (v : BField) :
    List (String × BField) :=
  if l.any (fun p => p.1 = k) then
    l.map (fun p => if p.1 = k then (k, v) else p)
  else
    l ++ [(k, v)]

/-- Modelled from the spec: the registry builder as the list of struct values
registered so far; `register_value` returns the handle (the index). -/
abbrev Builder := List JStruct

/-- `registry_builder.register_value(Value::Struct(s))`. -/
def register_value (b : Builder) (s : JStruct) : Nat × Builder :=
  (List.length b, b ++ [s])

/-- `EncodingConfig`, minus the `&mut` registry builder, which is threaded as
an explicit `Builder` value through `compute`. -/
structure EncodingConfig where
  meta : MetaData
  default_loc : Option DefaultLoc
  rpc_path : Option MetaPath
  supports_body : Bool
  supports_query : Bool
  supports_header : Bool
  supports_path : Bool

/-- `SchemaUnderConstruction`: registry handles for the five groups plus the
raw path template. -/
structure SchemaUnderConstruction where
  combined : Option Nat
  body : Option Nat
  query : Option Nat
  header : Option Nat
  cookie : Option Nat
  rpc_path : Option MetaPath

/-- The accumulator of `compute`'s field loop: the combined struct and the
four optional location groups. -/
structure Groups where
  combined : JStruct
  body : Option JStruct
  query : Option JStruct
  header : Option JStruct
  cookie : Option JStruct

/-- The path-bound field names (lines 96-111): the values of the non-literal
segments, collected as a set; an invalid segment discriminant is a fatal
error. -/
def pathFieldNames : List PathSegment → List String → Except RErr (List String)
  | [], acc => .ok acc
  | seg :: rest, acc =>
    match segTypeOf seg.type with
    | none => .error (.err ("invalid segment type"))
    | some .literal => pathFieldNames rest acc
    | some _ =>
      pathFieldNames rest (if acc.contains seg.value then acc else acc ++ [seg.value])

/-- The path-bound names of an optional path template (empty when there is
none). -/
def pathNamesOf : Option MetaPath → Except RErr (List String)
  | none => .ok []
  | some p => pathFieldNames p.segments []

/-- Lines 128-142: the wire location of one field — the explicit spec when
there is one, otherwise the context's default location, otherwise the
`MissingLocation` error naming the field. -/
def resolveWireLoc (cfg : EncodingConfig) (f : Field) : Except RErr WireLoc :=
  match f.wire.bind WireSpec.location with
  | none =>
    match cfg.default_loc with
    | none => .error (.err ("no location defined for field " ++ f.name))
    | some d => .ok d.into_wire_loc
  | some (Location.header hdr) => .ok (WireLoc.header (hdr.getD f.name))
  | some Location.query => .ok WireLoc.query
  | some (Location.cookie c) => .ok (WireLoc.cookie (c.getD f.name))

/-- Insertion into an optional group (lines 154-167): insert when the group
exists, create a singleton group otherwise. -/
def insertOpt (dst : Option JStruct) (k : String) (v : BField) : Option JStruct :=
  match dst with
  | some s => some ⟨insertField s.fields k v⟩
  | none => some ⟨[(k, v)]⟩

/-- One iteration of `compute`'s field loop (lines 125-167) for a non-path
field: intern the field, add it to `combined`, resolve its wire location and
route it (with the header/cookie name override) into the matching group. -/
def computeField (cfg : EncodingConfig) (g : Groups) (f : Field) : Except RErr Groups :=
  let (name, field) := struct_field f
  let combined : JStruct := ⟨insertField g.combined.fields name field⟩
  match resolveWireLoc cfg f with
  | .error e => .error e
  | .ok wire_loc =>
    match wire_loc with
    | WireLoc.body =>
      .ok ⟨combined, insertOpt g.body name { field with name_override := none },
           g.query, g.header, g.cookie⟩
    | WireLoc.query =>
      .ok ⟨combined, g.body, insertOpt g.query name { field with name_override := none },
           g.header, g.cookie⟩
    | WireLoc.header s =>
      .ok ⟨combined, g.body, g.query,
           insertOpt g.header name { field with name_override := some s }, g.cookie⟩
    | WireLoc.path =>
      -- the `WireLoc::Path => unreachable!()` arm
      .error (.panicked ("unreachable"))
    | WireLoc.cookie s =>
      .ok ⟨combined, g.body, g.query, g.header,
           insertOpt g.cookie name { field with name_override := some s }⟩

/-- `compute`'s loop over `st.fields` (lines 119-168): path-bound fields are
skipped, the rest processed in order. -/
def computeFields (cfg : EncodingConfig) (pf : List String) :
    List Field → Groups → Except RErr Groups
  | [], g => .ok g
  | f :: rest, g =>
    if pf.contains f.name then
      computeFields cfg pf rest g
    else
      match computeField cfg g f with
      | .error e => .error e
      | .ok g' => computeFields cfg pf rest g'

/-- Registration of an optional group (the `body.map(&mut build)` calls). -/
def registerOpt (b : Builder) : Option JStruct → Option Nat × Builder
  | none => (none, b)
  | some s =>
    let (i, b') := register_value b s
    (some i, b')

/-- Lines 170-182: register the combined group and each non-empty location
group, in the source's order, and assemble the schema under construction. -/
def registerGroups (b : Builder) (rpc_path : Option MetaPath) (g : Groups) :
    SchemaUnderConstruction × Builder :=
  let (i0, b1) := register_value b g.combined
  let (ib, b2) := registerOpt b1 g.body
  let (iq, b3) := registerOpt b2 g.query
  let (ih, b4) := registerOpt b3 g.header
  let (ic, b5) := registerOpt b4 g.cookie
  (⟨some i0, ib, iq, ih, ic, rpc_path⟩, b5)

/-- `EncodingConfig::compute` (lines 81-183): resolve the type; a non-struct
resolved type yields the all-empty schema (keeping the path template); for a
struct, compute the path-bound names, partition the fields and register the
groups. -/
def compute (cfg : EncodingConfig) (b : Builder) (typ : SType) :
    Except RErr (SchemaUnderConstruction × Builder) :=
  match typ.typ with
  | none => .error (.err ("type without type"))
  | some t =>
    match resolve_type cfg.meta t with
    | .error e => .error e
    | .ok c =>
      match c.val with
      | Typ.struct st =>
        match pathNamesOf cfg.rpc_path with
        | .error e => .error e
        | .ok pf =>
          match computeFields cfg pf st ⟨⟨[]⟩, none, none, none, none⟩ with
          | .error e => .error e
          | .ok g => .ok (registerGroups b cfg.rpc_path g)
      | _ => .ok (⟨none, none, none, none, none, cfg.rpc_path⟩, b)

/-- Modelled from the spec: the external HTTP method classifier (a closed
enum with a `supports_body()` predicate). Only the methods the spec names are
modelled: GET/HEAD/DELETE default to Query, POST/PUT/PATCH to Body. -/
inductive Method where
  | GET
  | HEAD
  | DELETE
  | POST
  | PUT
  | PATCH
deriving DecidableEq, Repr

/-- Modelled from the spec: which methods conventionally carry a body. -/
def Method.supports_body : Method → Bool
  | .POST | .PUT | .PATCH => true
  | _ => false

/-- Modelled from the spec: `Method::try_from` on the method token. -/
def Method.try_from (s : String) : Option Method :=
  if s = "GET" then some .GET
  else if s = "HEAD" then some .HEAD
  else if s = "DELETE" then some .DELETE
  else if s = "POST" then some .POST
  else if s = "PUT" then some .PUT
  else if s = "PATCH" then some .PATCH
  else none

/-- `meta::Rpc`, reduced to the components `request_encoding` reads. -/
structure Rpc where
  service_name : String
  name : String
  http_methods : List String
  streaming_request : Bool
  streaming_response : Bool
  request_schema : Option SType
  response_schema : Option SType
  handshake_schema : Option SType
  path : Option MetaPath

/-- `ReqSchemaUnderConstruction`. -/
structure ReqSchemaUnderConstruction where
  methods : List Method
  schema : SchemaUnderConstruction

/-- Lines 498-505: parse the declared HTTP method tokens; any failure is the
`unable to parse http methods` error. -/
def parse_methods : List String → Except RErr (List Method)
  | [] => .ok []
  | s :: rest =>
    match Method.try_from s with
    | none => .error (.err ("unable to parse http methods"))
    | some m =>
      match parse_methods rest with
      | .error e => .error e
      | .ok ms => .ok (m :: ms)

/-- `locs.entry(loc).or_insert(Vec::new()).push(*m)` on the association list
embedding of the `HashMap`. -/
def pushMethod : List (DefaultLoc × List Method) → DefaultLoc → Method →
    List (DefaultLoc × List Method)
  | [], loc, m => [(loc, [m])]
  | (l, ms) :: rest, loc, m =>
    if l = loc then (l, ms ++ [m]) :: rest
    else (l, ms) :: pushMethod rest loc m

/-- `split_by_loc` (lines 586-598): group the methods by whether they support
a body. Rust iterates the resulting `HashMap` in arbitrary order; the
embedding fixes insertion order, and every claim over the groups is stated
order-insensitively. -/
def split_by_loc (methods : List Method) : List (DefaultLoc × List Method) :=
  methods.foldl
    (fun locs m =>
      pushMethod locs (if m.supports_body then DefaultLoc.Body else DefaultLoc.Query) m)
    []

/-- The synthetic one-segment literal path `{service_name}.{name}` (lines
507-515). -/
def default_rpc_path (rpc : Rpc) : MetaPath :=
  ⟨[⟨rpc.service_name ++ "." ++ rpc.name, segLiteralN, paramTypeStringN, none⟩],
   pathTypeUrlN⟩

/-- The `EncodingConfig` of the streaming branch of `request_encoding`
(lines 479-488). -/
def streaming_request_cfg (meta : MetaData) : EncodingConfig :=
  ⟨meta, some DefaultLoc.Body, none, true, false, false, false⟩

/-- The `EncodingConfig` of one method group (lines 536-545). -/
def request_cfg (meta : MetaData) (loc : DefaultLoc) (p : MetaPath) : EncodingConfig :=
  ⟨meta, some loc, some p, true, true, true, true⟩

/-- The loop of `request_encoding` over the method groups (lines 533-551):
one `compute` per group, threading the builder, collecting one request schema
per group in order. -/
def encodeGroups (meta : MetaData) (ts : SType) (p : MetaPath) :
    List (DefaultLoc × List Method) → Builder →
    Except RErr (List ReqSchemaUnderConstruction × Builder)
  | [], b => .ok ([], b)
  | (loc, ms) :: rest, b =>
    match compute (request_cfg meta loc p) b ts with
    | .error e => .error e
    | .ok (schema, b') =>
      match encodeGroups meta ts p rest b' with
      | .error e => .error e
      | .ok (schemas, b'') => .ok (⟨ms, schema⟩ :: schemas, b'')

/-- `request_encoding` (lines 458-554). The synthetic placeholder method of
the streaming branch is `Method::GET`, as in the source. -/
def request_encoding (b : Builder) (meta : MetaData) (rpc : Rpc) :
    Except RErr (List ReqSchemaUnderConstruction × Builder) :=
  if rpc.streaming_request || rpc.streaming_response then
    -- Streaming request can only have a body schema
    match rpc.request_schema with
    | none => .ok ([⟨[Method.GET], ⟨none, none, none, none, none, none⟩⟩], b)
    | some request_schema =>
      match compute (streaming_request_cfg meta) b request_schema with
      | .error e => .error e
      | .ok (schema, b') => .ok ([⟨[Method.GET], schema⟩], b')
  else
    match parse_methods rpc.http_methods with
    | .error e => .error e
    | .ok methods =>
      let rpc_path := rpc.path.getD (default_rpc_path rpc)
      match rpc.request_schema with
      | none => .ok ([⟨methods, ⟨none, none, none, none, none, some rpc_path⟩⟩], b)
      | some request_schema =>
        encodeGroups meta request_schema rpc_path (split_by_loc methods) b

/-! ### Observations used by the statements -/

/-- The field names of an interned struct value. -/
def JStruct.keys (s : JStruct) : List String := s.fields.map Prod.fst

/-- The field names of an optional group. -/
def keysO : Option JStruct → List String
  | none => []
  | some s => s.keys

/-- The field names of a registered group, read back from the builder through
the handle. -/
def groupKeysList (b : Builder) : Option Nat → List String
  | none => []
  | some i =>
    match b[i]? with
    | some s => s.keys
    | none => []

/-- Whether the field name appears in the registered group the handle points
to. -/
def inGroup (b : Builder) (oi : Option Nat) (n : String) : Bool :=
  (groupKeysList b oi).contains n

/-- The names of the fields the partition loop actually processes: those not
bound to the path. -/
def nonPathNames (pf : List String) (fields : List Field) : List String :=
  (fields.filter (fun f => ¬ pf.contains f.name)).map Field.name

/-! ### Lemmas about insertion and registration -/

lemma keys_insertField_of_not_mem {l : List (String × BField)} {k : String} (v : BField)
    (h : k ∉ l.map Prod.fst) :
    (insertField l k v).map Prod.fst = l.map Prod.fst ++ [k] := by
  have : l.any (fun p => p.1 = k) = false := by
    rw [List.any_eq_false]
    intro p hp
    simp only [decide_eq_true_eq]
    intro hk
    exact h (hk ▸ List.mem_map_of_mem Prod.fst hp)
  simp [insertField, this]

lemma keys_insertField_of_mem {l : List (String × BField)} {k : String} (v : BField)
    (h : k ∈ l.map Prod.fst) :
    (insertField l k v).map Prod.fst = l.map Prod.fst := by
  have : l.any (fun p => p.1 = k) = true := by
    rw [List.any_eq_true]
    obtain ⟨p, hp, hk⟩ := List.mem_map.mp h
    exact ⟨p, hp, by simp [hk]⟩
  simp only [insertField, this, if_true]
  rw [List.map_map]
  apply List.map_congr_left
  intro p _
  by_cases hpk : p.1 = k <;> simp [hpk]

lemma mem_keys_insertField {l : List (String × BField)} {k n : String} {v : BField} :
    n ∈ (insertField l k v).map Prod.fst ↔ n ∈ l.map Prod.fst ∨ n = k := by
  by_cases h : k ∈ l.map Prod.fst
  · rw [keys_insertField_of_mem v h]
    constructor
    · exact Or.inl
    · rintro (hn | rfl)
      · exact hn
      · exact h
  · rw [keys_insertField_of_not_mem v h]
    simp

lemma mem_keysO_insertOpt {dst : Option JStruct} {k n : String} {v : BField} :
    n ∈ keysO (insertOpt dst k v) ↔ n ∈ keysO dst ∨ n = k := by
  cases dst with
  | none => simp [insertOpt, keysO, JStruct.keys]
  | some s =>
    simp only [insertOpt, keysO, JStruct.keys]
    exact mem_keys_insertField

lemma keysO_insertOpt_of_not_mem {dst : Option JStruct} {k : String} (v : BField)
    (h : k ∉ keysO dst) :
    keysO (insertOpt dst k v) = keysO dst ++ [k] := by
  cases dst with
  | none => simp [insertOpt, keysO, JStruct.keys]
  | some s =>
    simp only [insertOpt, keysO, JStruct.keys]
    exact keys_insertField_of_not_mem v h

lemma getElem?_append_len {α : Type} (b l : List α) (k : Nat) :
    (b ++ l)[b.length + k]? = l[k]? := by
  rw [List.getElem?_append_right (Nat.le_add_right _ _)]
  simp

lemma getElem?_append_len0 {α : Type} (b l : List α) :
    (b ++ l)[b.length]? = l[0]? := by
  have := getElem?_append_len b l 0
  simpa using this

lemma builder_lookup0 (bb : List JStruct) (x : JStruct) (t : List JStruct) :
    (bb ++ x :: t)[bb.length]? = some x := by
  have := getElem?_append_len bb (x :: t) 0
  simpa using this

lemma builder_lookup1 (bb : List JStruct) (x y : JStruct) (t : List JStruct) :
    (bb ++ x :: y :: t)[bb.length + 1]? = some y := by
  have := getElem?_append_len bb (x :: y :: t) 1
  simpa using this

lemma builder_lookup2 (bb : List JStruct) (x y z : JStruct) (t : List JStruct) :
    (bb ++ x :: y :: z :: t)[bb.length + 1 + 1]? = some z := by
  have := getElem?_append_len bb (x :: y :: z :: t) 2
  simpa [Nat.add_assoc] using this

lemma builder_lookup3 (bb : List JStruct) (x y z w : JStruct) (t : List JStruct) :
    (bb ++ x :: y :: z :: w :: t)[bb.length + 1 + 1 + 1]? = some w := by
  have := getElem?_append_len bb (x :: y :: z :: w :: t) 3
  simpa [Nat.add_assoc] using this

lemma builder_lookup4 (bb : List JStruct) (x y z w u : JStruct) (t : List JStruct) :
    (bb ++ x :: y :: z :: w :: u :: t)[bb.length + 1 + 1 + 1 + 1]? = some u := by
  have := getElem?_append_len bb (x :: y :: z :: w :: u :: t) 4
  simpa [Nat.add_assoc] using this

/-- Reading each group of `registerGroups` back from the resulting builder
gives exactly the keys of the corresponding partition group, the handles are
new registrations appended to the builder, and the path template is carried
through. -/
lemma registerGroups_spec (b : Builder) (p : Option MetaPath) (g : Groups)
    {suc : SchemaUnderConstruction} {b2 : Builder}
    (h : registerGroups b p g = (suc, b2)) :
    groupKeysList b2 suc.combined = g.combined.keys ∧
    groupKeysList b2 suc.body = keysO g.body ∧
    groupKeysList b2 suc.query = keysO g.query ∧
    groupKeysList b2 suc.header = keysO g.header ∧
    groupKeysList b2 suc.cookie = keysO g.cookie ∧
    suc.rpc_path = p ∧
    (suc.query = none ↔ g.query = none) ∧
    (suc.header = none ↔ g.header = none) ∧
    (suc.body = none ↔ g.body = none) ∧
    ∃ l, b2 = b ++ l := by
  obtain ⟨c, ob, oq, oh, oc⟩ := g
  cases ob <;> cases oq <;> cases oh <;> cases oc <;>
    · simp only [registerGroups, register_value, registerOpt] at h
      injection h with h1 h2
      subst h1
      subst h2
      refine ⟨?_, ?_, ?_, ?_, ?_, rfl, by simp, by simp, by simp,
        ⟨_, by first | rfl | (simp only [List.append_assoc]; rfl)⟩⟩ <;>
        simp only [groupKeysList, keysO, JStruct.keys, List.append_assoc, List.cons_append,
          List.nil_append, List.singleton_append, List.length_append, List.length_cons,
          List.length_nil, Nat.zero_add, builder_lookup0, builder_lookup1, builder_lookup2,
          builder_lookup3, builder_lookup4]

/-! ### Lemmas about the partition loop -/

/-- The four location groups, named. -/
inductive GKind where
  | body
  | query
  | header
  | cookie
deriving DecidableEq, Repr

/-- The group a wire location routes a field into (`Path` routes nowhere:
that arm is unreachable in the loop). -/
def kindOf : WireLoc → Option GKind
  | .body => some .body
  | .query => some .query
  | .header _ => some .header
  | .path => none
  | .cookie _ => some .cookie

/-- Selecting one of the four optional groups. -/
def selKind (g : Groups) : GKind → Option JStruct
  | .body => g.body
  | .query => g.query
  | .header => g.header
  | .cookie => g.cookie

/-- The concatenation of the four groups' key lists. -/
def fourConcat (g : Groups) : List String :=
  keysO g.body ++ keysO g.query ++ keysO g.header ++ keysO g.cookie

lemma resolveWireLoc_ne_path {cfg : EncodingConfig} {f : Field} :
    resolveWireLoc cfg f ≠ .ok WireLoc.path := by
  unfold resolveWireLoc
  rcases f.wire.bind WireSpec.location with _ | l
  · rcases cfg.default_loc with _ | d
    · simp
    · cases d <;> simp [DefaultLoc.into_wire_loc]
  · cases l <;> simp

lemma computeField_ok_loc {cfg : EncodingConfig} {g g' : Groups} {f : Field}
    (h : computeField cfg g f = .ok g') :
    ∃ wl, resolveWireLoc cfg f = .ok wl := by
  unfold computeField at h
  rcases hwl : resolveWireLoc cfg f with e | wl
  · rw [hwl] at h
    simp at h
  · exact ⟨wl, rfl⟩

/-- The full effect of one loop iteration: `combined` gets the field under its
name, the group of the resolved wire location gets it (with some interned
value), and the other three groups are untouched. -/
lemma computeField_step {cfg : EncodingConfig} {g g' : Groups} {f : Field} {wl : WireLoc}
    (hwl : resolveWireLoc cfg f = .ok wl)
    (h : computeField cfg g f = .ok g') :
    g'.combined.fields = insertField g.combined.fields f.name ⟨f, none⟩ ∧
    ∃ k v, kindOf wl = some k ∧
      selKind g' k = insertOpt (selKind g k) f.name v ∧
      (∀ k', k' ≠ k → selKind g' k' = selKind g k') := by
  unfold computeField at h
  rw [hwl] at h
  cases wl with
  | body =>
    simp only [struct_field] at h
    injection h with h
    subst h
    refine ⟨rfl, GKind.body, _, rfl, rfl, ?_⟩
    intro k' hk'
    cases k' <;> simp_all [selKind]
  | query =>
    simp only [struct_field] at h
    injection h with h
    subst h
    refine ⟨rfl, GKind.query, _, rfl, rfl, ?_⟩
    intro k' hk'
    cases k' <;> simp_all [selKind]
  | header s =>
    simp only [struct_field] at h
    injection h with h
    subst h
    refine ⟨rfl, GKind.header, _, rfl, rfl, ?_⟩
    intro k' hk'
    cases k' <;> simp_all [selKind]
  | cookie s =>
    simp only [struct_field] at h
    injection h with h
    subst h
    refine ⟨rfl, GKind.cookie, _, rfl, rfl, ?_⟩
    intro k' hk'
    cases k' <;> simp_all [selKind]
  | path => exact absurd hwl resolveWireLoc_ne_path

/-- Keys already present in a group survive the rest of the loop. -/
lemma computeFields_mono {cfg : EncodingConfig} {pf : List String} :
    ∀ {fs : List Field} {g0 g : Groups}, computeFields cfg pf fs g0 = .ok g →
    (∀ n, n ∈ g0.combined.keys → n ∈ g.combined.keys) ∧
    (∀ k n, n ∈ keysO (selKind g0 k) → n ∈ keysO (selKind g k)) := by
  intro fs
  induction fs with
  | nil =>
    intro g0 g h
    rw [computeFields] at h
    injection h with h
    subst h
    exact ⟨fun _ hn => hn, fun _ _ hn => hn⟩
  | cons f rest ih =>
    intro g0 g h
    rw [computeFields] at h
    by_cases hp : pf.contains f.name
    · rw [if_pos hp] at h
      exact ih h
    · rw [if_neg hp] at h
      rcases hcf : computeField cfg g0 f with e | g1
      · rw [hcf] at h
        simp at h
      · rw [hcf] at h
        obtain ⟨wl, hwl⟩ := computeField_ok_loc hcf
        obtain ⟨hcomb, k, v, hk, hsel, hfr⟩ := computeField_step hwl hcf
        obtain ⟨ihc, ihs⟩ := ih h
        constructor
        · intro n hn
          apply ihc
          simp only [JStruct.keys, hcomb]
          exact mem_keys_insertField.mpr (Or.inl hn)
        · intro k' n hn
          apply ihs
          by_cases hkk : k' = k
          · subst hkk
            rw [hsel]
            exact mem_keysO_insertOpt.mpr (Or.inl hn)
          · rw [hfr k' hkk]
            exact hn

/-- Every key of every group after the loop is either a starting key or the
name of a processed (non-path) field. -/
lemma computeFields_subset {cfg : EncodingConfig} {pf : List String} :
    ∀ {fs : List Field} {g0 g : Groups}, computeFields cfg pf fs g0 = .ok g →
    (∀ n, n ∈ g.combined.keys → n ∈ g0.combined.keys ∨ n ∈ nonPathNames pf fs) ∧
    (∀ k n, n ∈ keysO (selKind g k) → n ∈ keysO (selKind g0 k) ∨ n ∈ nonPathNames pf fs) := by
  intro fs
  induction fs with
  | nil =>
    intro g0 g h
    rw [computeFields] at h
    injection h with h
    subst h
    exact ⟨fun _ hn => Or.inl hn, fun _ _ hn => Or.inl hn⟩
  | cons f rest ih =>
    intro g0 g h
    rw [computeFields] at h
    by_cases hp : pf.contains f.name
    · rw [if_pos hp] at h
      have hp' : f.name ∈ pf := List.mem_of_elem_eq_true hp
      have hnn : nonPathNames pf (f :: rest) = nonPathNames pf rest := by
        simp [nonPathNames, List.filter_cons, hp']
      rw [hnn]
      exact ih h
    · rw [if_neg hp] at h
      rcases hcf : computeField cfg g0 f with e | g1
      · rw [hcf] at h
        simp at h
      · rw [hcf] at h
        have hp' : f.name ∉ pf := fun hm => hp (List.elem_eq_true_of_mem hm)
        have hnn : nonPathNames pf (f :: rest) = f.name :: nonPathNames pf rest := by
          simp [nonPathNames, List.filter_cons, hp']
        obtain ⟨wl, hwl⟩ := computeField_ok_loc hcf
        obtain ⟨hcomb, k, v, hk, hsel, hfr⟩ := computeField_step hwl hcf
        obtain ⟨ihc, ihs⟩ := ih h
        rw [hnn]
        constructor
        · intro n hn
          rcases ihc n hn with hn1 | hn2
          · simp only [JStruct.keys, hcomb] at hn1
            rcases mem_keys_insertField.mp hn1 with hn3 | rfl
            · exact Or.inl hn3
            · exact Or.inr (List.mem_cons_self _ _)
          · exact Or.inr (List.mem_cons_of_mem _ hn2)
        · intro k' n hn
          rcases ihs k' n hn with hn1 | hn2
          · by_cases hkk : k' = k
            · subst hkk
              rw [hsel] at hn1
              rcases mem_keysO_insertOpt.mp hn1 with hn3 | rfl
              · exact Or.inl hn3
              · exact Or.inr (List.mem_cons_self _ _)
            · rw [hfr k' hkk] at hn1
              exact Or.inl hn1
          · exact Or.inr (List.mem_cons_of_mem _ hn2)

/-- A processed non-path field's name lands in the group its wire location
routes it to. -/
lemma computeFields_mem {cfg : EncodingConfig} {pf : List String} :
    ∀ {fs : List Field} {g0 g : Groups} {f : Field} {wl : WireLoc} {k : GKind},
    computeFields cfg pf fs g0 = .ok g →
    f ∈ fs → pf.contains f.name = false →
    resolveWireLoc cfg f = .ok wl → kindOf wl = some k →
    f.name ∈ keysO (selKind g k) := by
  intro fs
  induction fs with
  | nil =>
    intro g0 g f wl k _ hmem
    exact absurd hmem (List.not_mem_nil f)
  | cons f0 rest ih =>
    intro g0 g f wl k h hmem hnp hwl hk
    rw [computeFields] at h
    rcases List.mem_cons.mp hmem with rfl | hmem'
    · rw [if_neg (by rw [hnp]; exact Bool.false_ne_true)] at h
      rcases hcf : computeField cfg g0 f with e | g1
      · rw [hcf] at h
        simp at h
      · rw [hcf] at h
        obtain ⟨hcomb, k', v, hk', hsel, hfr⟩ := computeField_step hwl hcf
        have hkk : k' = k := by
          rw [hk] at hk'
          injection hk' with hkk2
          exact hkk2.symm
        subst hkk
        have : f.name ∈ keysO (selKind g1 k') := by
          rw [hsel]
          exact mem_keysO_insertOpt.mpr (Or.inr rfl)
        exact (computeFields_mono h).2 k' f.name this
    · by_cases hp : pf.contains f0.name
      · rw [if_pos hp] at h
        exact ih h hmem' hnp hwl hk
      · rw [if_neg hp] at h
        rcases hcf : computeField cfg g0 f0 with e | g1
        · rw [hcf] at h
          simp at h
        · rw [hcf] at h
          exact ih h hmem' hnp hwl hk

/-- A group no processed field routes into stays `none`. -/
lemma computeFields_none {cfg : EncodingConfig} {pf : List String} {k : GKind} :
    ∀ {fs : List Field} {g0 g : Groups}, computeFields cfg pf fs g0 = .ok g →
    (∀ f, f ∈ fs → ∀ wl, resolveWireLoc cfg f = .ok wl → kindOf wl ≠ some k) →
    selKind g0 k = none → selKind g k = none := by
  intro fs
  induction fs with
  | nil =>
    intro g0 g h _ h0
    rw [computeFields] at h
    injection h with h
    subst h
    exact h0
  | cons f rest ih =>
    intro g0 g h hall h0
    rw [computeFields] at h
    by_cases hp : pf.contains f.name
    · rw [if_pos hp] at h
      exact ih h (fun f' hf' => hall f' (List.mem_cons_of_mem _ hf')) h0
    · rw [if_neg hp] at h
      rcases hcf : computeField cfg g0 f with e | g1
      · rw [hcf] at h
        simp at h
      · rw [hcf] at h
        obtain ⟨wl, hwl⟩ := computeField_ok_loc hcf
        obtain ⟨hcomb, k', v, hk', hsel, hfr⟩ := computeField_step hwl hcf
        have hkk : k' ≠ k := by
          intro hkk
          exact hall f (List.mem_cons_self _ _) wl hwl (hkk ▸ hk')
        refine ih h (fun f' hf' => hall f' (List.mem_cons_of_mem _ hf')) ?_
        rw [hfr k (fun hkk2 => hkk (hkk2.symm))]
        exact h0

lemma perm_insert_middle (x : String) (A B : List String) :
    (A ++ [x] ++ B).Perm ((A ++ B) ++ [x]) := by
  have h1 : (([x] ++ B) : List String).Perm (B ++ [x]) := List.perm_append_comm
  have h2 := h1.append_left A
  simpa [List.append_assoc] using h2

lemma mem_fourConcat_of_sel {g : Groups} {k : GKind} {n : String}
    (h : n ∈ keysO (selKind g k)) : n ∈ fourConcat g := by
  cases k <;> simp only [selKind] at h <;> simp [fourConcat, h]

/-- The partition invariant: with pairwise-fresh processed names, `combined`
collects exactly the processed non-path names, and the four groups hold a
permutation of them (each name in exactly one group). -/
lemma computeFields_partition {cfg : EncodingConfig} {pf : List String} :
    ∀ {fs : List Field} {g0 g : Groups}, computeFields cfg pf fs g0 = .ok g →
    (g0.combined.keys ++ nonPathNames pf fs).Nodup →
    (∀ n, n ∈ fourConcat g0 → n ∈ g0.combined.keys) →
    g.combined.keys = g0.combined.keys ++ nonPathNames pf fs ∧
    (fourConcat g).Perm (fourConcat g0 ++ nonPathNames pf fs) := by
  intro fs
  induction fs with
  | nil =>
    intro g0 g h _ _
    rw [computeFields] at h
    injection h with h
    subst h
    simp [nonPathNames]
  | cons f rest ih =>
    intro g0 g h hnd hsub
    rw [computeFields] at h
    by_cases hp : pf.contains f.name
    · rw [if_pos hp] at h
      have hp' : f.name ∈ pf := List.mem_of_elem_eq_true hp
      have hnn : nonPathNames pf (f :: rest) = nonPathNames pf rest := by
        simp [nonPathNames, List.filter_cons, hp']
      rw [hnn] at hnd ⊢
      exact ih h hnd hsub
    · rw [if_neg hp] at h
      have hp' : f.name ∉ pf := fun hm => hp (List.elem_eq_true_of_mem hm)
      have hnn : nonPathNames pf (f :: rest) = f.name :: nonPathNames pf rest := by
        simp [nonPathNames, List.filter_cons, hp']
      rw [hnn] at hnd ⊢
      rcases hcf : computeField cfg g0 f with e | g1
      · rw [hcf] at h
        simp at h
      · rw [hcf] at h
        obtain ⟨wl, hwl⟩ := computeField_ok_loc hcf
        obtain ⟨hcomb, k, v, hk, hsel, hfr⟩ := computeField_step hwl hcf
        obtain ⟨hnd1, hnd2, hdisj⟩ := List.nodup_append.mp hnd
        -- the processed name is fresh for `combined`, hence for every group
        have hfresh : f.name ∉ g0.combined.keys := by
          intro hmem
          exact hdisj hmem (List.mem_cons_self _ _)
        have hck : g1.combined.keys = g0.combined.keys ++ [f.name] := by
          simp only [JStruct.keys, hcomb]
          exact keys_insertField_of_not_mem _ hfresh
        have hfreshk : f.name ∉ keysO (selKind g0 k) := by
          intro hmem
          exact hfresh (hsub _ (mem_fourConcat_of_sel hmem))
        have hselk : keysO (selKind g1 k) = keysO (selKind g0 k) ++ [f.name] := by
          rw [hsel]
          exact keysO_insertOpt_of_not_mem _ hfreshk
        have hperm1 : (fourConcat g1).Perm (fourConcat g0 ++ [f.name]) := by
          cases k with
          | body =>
            have hb := hselk
            have hq := hfr .query (by simp)
            have hh := hfr .header (by simp)
            have hc := hfr .cookie (by simp)
            simp only [selKind] at hb hq hh hc
            simp only [fourConcat, hb, hq, hh, hc]
            simpa [List.append_assoc] using
              perm_insert_middle f.name (keysO g0.body)
                (keysO g0.query ++ (keysO g0.header ++ keysO g0.cookie))
          | query =>
            have hb := hfr .body (by simp)
            have hq := hselk
            have hh := hfr .header (by simp)
            have hc := hfr .cookie (by simp)
            simp only [selKind] at hb hq hh hc
            simp only [fourConcat, hb, hq, hh, hc]
            have := (perm_insert_middle f.name (keysO g0.query)
              (keysO g0.header ++ keysO g0.cookie)).append_left (keysO g0.body)
            simpa [List.append_assoc] using this
          | header =>
            have hb := hfr .body (by simp)
            have hq := hfr .query (by simp)
            have hh := hselk
            have hc := hfr .cookie (by simp)
            simp only [selKind] at hb hq hh hc
            simp only [fourConcat, hb, hq, hh, hc]
            have := ((perm_insert_middle f.name (keysO g0.header)
              (keysO g0.cookie)).append_left (keysO g0.query)).append_left (keysO g0.body)
            simpa [List.append_assoc] using this
          | cookie =>
            have hb := hfr .body (by simp)
            have hq := hfr .query (by simp)
            have hh := hfr .header (by simp)
            have hc := hselk
            simp only [selKind] at hb hq hh hc
            simp only [fourConcat, hb, hq, hh, hc]
            have h4 := (((perm_insert_middle f.name (keysO g0.cookie)
              []).append_left (keysO g0.header)).append_left
                (keysO g0.query)).append_left (keysO g0.body)
            simp only [List.append_nil, List.append_assoc] at h4
            simp only [fourConcat, List.append_assoc]
            exact h4
        have hnd' : (g1.combined.keys ++ nonPathNames pf rest).Nodup := by
          rw [hck, List.append_assoc]
          simpa using hnd
        have hsub' : ∀ n, n ∈ fourConcat g1 → n ∈ g1.combined.keys := by
          intro n hn
          rw [hck]
          rcases List.mem_append.mp ((hperm1.mem_iff).mp hn) with hn1 | hn1
          · exact List.mem_append_left _ (hsub n hn1)
          · exact List.mem_append_right _ hn1
        obtain ⟨ihc, ihp⟩ := ih h hnd' hsub'
        constructor
        · rw [ihc, hck, List.append_assoc]
          simp
        · refine ihp.trans ?_
          refine (hperm1.append_right (nonPathNames pf rest)).trans ?_
          rw [List.append_assoc]
          simp

/-! ### The path-bound name set -/

lemma pathFieldNames_sub :
    ∀ {segs : List PathSegment} {acc pf : List String},
    pathFieldNames segs acc = .ok pf → ∀ n, n ∈ acc → n ∈ pf := by
  intro segs
  induction segs with
  | nil =>
    intro acc pf h n hn
    rw [pathFieldNames] at h
    injection h with h
    subst h
    exact hn
  | cons seg rest ih =>
    intro acc pf h n hn
    rw [pathFieldNames] at h
    rcases hst : segTypeOf seg.type with _ | stt
    · rw [hst] at h
      simp at h
    · rw [hst] at h
      cases stt with
      | literal => exact ih h n hn
      | param =>
        refine ih h n ?_
        by_cases hc : acc.contains seg.value
        · simp [List.mem_of_elem_eq_true hc, hn]
        · have hc' : seg.value ∉ acc := fun hm => hc (List.elem_eq_true_of_mem hm)
          simp [hc', hn]
      | wildcard =>
        refine ih h n ?_
        by_cases hc : acc.contains seg.value
        · simp [List.mem_of_elem_eq_true hc, hn]
        · have hc' : seg.value ∉ acc := fun hm => hc (List.elem_eq_true_of_mem hm)
          simp [hc', hn]
      | fallback =>
        refine ih h n ?_
        by_cases hc : acc.contains seg.value
        · simp [List.mem_of_elem_eq_true hc, hn]
        · have hc' : seg.value ∉ acc := fun hm => hc (List.elem_eq_true_of_mem hm)
          simp [hc', hn]

lemma pathFieldNames_complete :
    ∀ {segs : List PathSegment} {acc pf : List String},
    pathFieldNames segs acc = .ok pf →
    ∀ seg, seg ∈ segs → ∀ stt, segTypeOf seg.type = some stt → stt ≠ SegmentType.literal →
    seg.value ∈ pf := by
  intro segs
  induction segs with
  | nil =>
    intro acc pf _ seg hmem
    exact absurd hmem (List.not_mem_nil seg)
  | cons seg0 rest ih =>
    intro acc pf h seg hmem stt hst hnl
    rw [pathFieldNames] at h
    rcases List.mem_cons.mp hmem with rfl | hmem'
    · rw [hst] at h
      cases stt with
      | literal => exact absurd rfl hnl
      | param =>
        refine pathFieldNames_sub h seg.value ?_
        by_cases hc : acc.contains seg.value
        · simp [List.mem_of_elem_eq_true hc]
        · have hc' : seg.value ∉ acc := fun hm => hc (List.elem_eq_true_of_mem hm)
          simp [hc']
      | wildcard =>
        refine pathFieldNames_sub h seg.value ?_
        by_cases hc : acc.contains seg.value
        · simp [List.mem_of_elem_eq_true hc]
        · have hc' : seg.value ∉ acc := fun hm => hc (List.elem_eq_true_of_mem hm)
          simp [hc']
      | fallback =>
        refine pathFieldNames_sub h seg.value ?_
        by_cases hc : acc.contains seg.value
        · simp [List.mem_of_elem_eq_true hc]
        · have hc' : seg.value ∉ acc := fun hm => hc (List.elem_eq_true_of_mem hm)
          simp [hc']
    · rcases hst0 : segTypeOf seg0.type with _ | stt0
      · rw [hst0] at h
        simp at h
      · rw [hst0] at h
        cases stt0 <;> exact ih h seg hmem' stt hst hnl

/-! ### Reading registered groups back -/

lemma inGroup_eq_true_iff {b : Builder} {oi : Option Nat} {n : String} :
    inGroup b oi n = true ↔ n ∈ groupKeysList b oi := by
  constructor
  · exact fun h => List.mem_of_elem_eq_true h
  · exact fun h => List.elem_eq_true_of_mem h

lemma inGroup_extend {b l : Builder} {oi : Option Nat} {n : String}
    (h : inGroup b oi n = true) : inGroup (b ++ l) oi n = true := by
  rcases oi with _ | i
  · simp [inGroup, groupKeysList] at h
  · rw [inGroup_eq_true_iff] at h ⊢
    simp only [groupKeysList] at h ⊢
    rcases hbi : b[i]? with _ | s
    · rw [hbi] at h
      simp at h
    · rw [hbi] at h
      have hi : i < b.length := by
        by_contra hge
        rw [List.getElem?_eq_none (Nat.le_of_not_lt hge)] at hbi
        exact Option.noConfusion hbi
      rw [List.getElem?_append_left hi, hbi]
      exact h

/-- Success of `compute`, decomposed: the type's inner `Typ` is present and
resolves; a resolved struct goes through path-name computation, the partition
loop and registration, anything else returns the empty schema unchanged. -/
lemma compute_ok_cases {cfg : EncodingConfig} {b : Builder} {typ : SType}
    {suc : SchemaUnderConstruction} {b2 : Builder}
    (hc : compute cfg b typ = .ok (suc, b2)) :
    ∃ t c, typ.typ = some t ∧ resolve_type cfg.meta t = .ok c ∧
      ((∃ fs pf g, c.val = Typ.struct fs ∧ pathNamesOf cfg.rpc_path = .ok pf ∧
          computeFields cfg pf fs ⟨⟨[]⟩, none, none, none, none⟩ = .ok g ∧
          registerGroups b cfg.rpc_path g = (suc, b2)) ∨
       ((∀ fs, c.val ≠ Typ.struct fs) ∧
          suc = ⟨none, none, none, none, none, cfg.rpc_path⟩ ∧ b2 = b)) := by
  unfold compute at hc
  split at hc
  · simp at hc
  · rename_i t h1
    split at hc
    · simp at hc
    · rename_i c h2
      refine ⟨t, c, h1, h2, ?_⟩
      split at hc
      · rename_i fs h3
        left
        split at hc
        · simp at hc
        · rename_i pf h4
          split at hc
          · simp at hc
          · rename_i g h5
            injection hc with hc
            exact ⟨fs, pf, g, h3, h4, h5, hc⟩
      · rename_i hne
        right
        injection hc with hc
        injection hc with hc1 hc2
        refine ⟨?_, hc1.symm, hc2.symm⟩
        intro fs hfs
        exact hne fs hfs

/-- `compute` only appends to the builder. -/
lemma compute_extends {cfg : EncodingConfig} {b : Builder} {typ : SType}
    {suc : SchemaUnderConstruction} {b2 : Builder}
    (hc : compute cfg b typ = .ok (suc, b2)) : ∃ l, b2 = b ++ l := by
  obtain ⟨t, c, h1, h2, hcase⟩ := compute_ok_cases hc
  rcases hcase with ⟨fs, pf, g, _, _, _, hreg⟩ | ⟨_, _, rfl⟩
  · exact (registerGroups_spec b cfg.rpc_path g hreg).2.2.2.2.2.2.2.2.2
  · exact ⟨[], by simp⟩

/-! ### Fully concrete trees -/

mutual
/-- A type tree that is fully concrete for the resolver and keeps its shape:
no `named`, `type_parameter`, `pointer` (the resolver strips pointer
wrappers) or `config` node, and every required sub-structure present. -/
def concreteWF : Typ → Bool
  | .named _ _ => false
  | .struct fields => concreteWFFields fields
  | .map (some (SType.mk (some kt) _)) (some (SType.mk (some vt) _)) =>
    concreteWF kt && concreteWF vt
  | .map _ _ => false
  | .list (some (SType.mk (some et) _)) => concreteWF et
  | .list _ => false
  | .union types => concreteWFTypes types
  | .builtin _ => true
  | .literal _ => true
  | .pointer _ => false
  | .type_parameter _ => false
  | .config _ => false

/-- `concreteWF` over a member list, each member's `Typ` present. -/
def concreteWFTypes : List SType → Bool
  | [] => true
  | SType.mk (some t) _ :: rest => concreteWF t && concreteWFTypes rest
  | SType.mk none _ :: _ => false

/-- `concreteWF` over a field list, each field's type present. -/
def concreteWFFields : List Field → Bool
  | [] => true
  | Field.mk _ (some (SType.mk (some t) _)) _ _ :: rest => concreteWF t && concreteWFFields rest
  | _ :: _ => false
end

lemma resolve_concrete_aux : ∀ n : Nat,
    (∀ (typ : Typ) (r : TypeArgResolver), sizeOf typ ≤ n → concreteWF typ = true →
      ∃ bb, resolve r typ = .ok ⟨bb, typ⟩) ∧
    (∀ (types : List SType) (r : TypeArgResolver), sizeOf types ≤ n →
      concreteWFTypes types = true →
      ∃ cs, resolve_types r types = .ok cs ∧ rebuildTypes cs types = types) ∧
    (∀ (fields : List Field) (r : TypeArgResolver), sizeOf fields ≤ n →
      concreteWFFields fields = true →
      resolve_fields r fields = .ok fields) := by
  intro n
  induction n using Nat.strong_induction_on with
  | _ n ih =>
    refine ⟨?_, ?_, ?_⟩
    · intro typ r hsz hwf
      match typ with
      | .named _ _ => simp [concreteWF] at hwf
      | .pointer _ => simp [concreteWF] at hwf
      | .type_parameter _ => simp [concreteWF] at hwf
      | .config _ => simp [concreteWF] at hwf
      | .builtin b => exact ⟨true, by simp [resolve]⟩
      | .literal v => exact ⟨true, by simp [resolve]⟩
      | .struct fields =>
        have hlt : sizeOf fields < n := by
          have : sizeOf fields < sizeOf (Typ.struct fields) := by
            simp <;> omega
          omega
        have hwff : concreteWFFields fields = true := by
          simpa [concreteWF] using hwf
        have hres := (ih (sizeOf fields) hlt).2.2 fields r (Nat.le_refl _) hwff
        exact ⟨false, by simp [resolve, hres]⟩
      | .map none _ => simp [concreteWF] at hwf
      | .map (some (SType.mk none _)) _ => simp [concreteWF] at hwf
      | .map (some (SType.mk (some _) _)) none => simp [concreteWF] at hwf
      | .map (some (SType.mk (some _) _)) (some (SType.mk none _)) => simp [concreteWF] at hwf
      | .map (some (SType.mk (some kt) kv)) (some (SType.mk (some vt) vv)) =>
        have hwfk : concreteWF kt = true := by
          have := hwf
          simp [concreteWF, Bool.and_eq_true] at this
          exact this.1
        have hwfv : concreteWF vt = true := by
          have := hwf
          simp [concreteWF, Bool.and_eq_true] at this
          exact this.2
        have hltk : sizeOf kt < n := by
          have : sizeOf kt < sizeOf (Typ.map (some (SType.mk (some kt) kv))
              (some (SType.mk (some vt) vv))) := by
            simp <;> omega
          omega
        have hltv : sizeOf vt < n := by
          have : sizeOf vt < sizeOf (Typ.map (some (SType.mk (some kt) kv))
              (some (SType.mk (some vt) vv))) := by
            simp <;> omega
          omega
        obtain ⟨bk, hk⟩ := (ih (sizeOf kt) hltk).1 kt r (Nat.le_refl _) hwfk
        obtain ⟨bv, hv⟩ := (ih (sizeOf vt) hltv).1 vt r (Nat.le_refl _) hwfv
        refine ⟨bk && bv, ?_⟩
        cases hbb : bk && bv <;> simp [resolve, hk, hv, hbb]
      | .list none => simp [concreteWF] at hwf
      | .list (some (SType.mk none _)) => simp [concreteWF] at hwf
      | .list (some (SType.mk (some et) ev)) =>
        have hwfe : concreteWF et = true := by
          simpa [concreteWF] using hwf
        have hlte : sizeOf et < n := by
          have : sizeOf et < sizeOf (Typ.list (some (SType.mk (some et) ev))) := by
            simp <;> omega
          omega
        obtain ⟨be, he⟩ := (ih (sizeOf et) hlte).1 et r (Nat.le_refl _) hwfe
        refine ⟨be, ?_⟩
        cases hbe : be <;> simp [resolve, he, hbe]
      | .union types =>
        have hwft : concreteWFTypes types = true := by
          simpa [concreteWF] using hwf
        have hlt : sizeOf types < n := by
          have : sizeOf types < sizeOf (Typ.union types) := by
            simp <;> omega
          omega
        obtain ⟨cs, hcs, hrb⟩ := (ih (sizeOf types) hlt).2.1 types r (Nat.le_refl _) hwft
        exact ⟨false, by simp [resolve, hcs, hrb]⟩
    · intro types r hsz hwf
      match types with
      | [] => exact ⟨[], by simp [resolve_types, rebuildTypes]⟩
      | SType.mk none _ :: _ => simp [concreteWFTypes] at hwf
      | SType.mk (some t) v :: rest =>
        have hwf1 : concreteWF t = true := by
          have := hwf
          simp [concreteWFTypes, Bool.and_eq_true] at this
          exact this.1
        have hwf2 : concreteWFTypes rest = true := by
          have := hwf
          simp [concreteWFTypes, Bool.and_eq_true] at this
          exact this.2
        have hlt1 : sizeOf t < n := by
          have : sizeOf t < sizeOf (SType.mk (some t) v :: rest) := by
            simp <;> omega
          omega
        have hlt2 : sizeOf rest < n := by
          have : sizeOf rest < sizeOf (SType.mk (some t) v :: rest) := by
            simp <;> omega
          omega
        obtain ⟨b1, h1⟩ := (ih (sizeOf t) hlt1).1 t r (Nat.le_refl _) hwf1
        obtain ⟨cs, h2, hrb⟩ := (ih (sizeOf rest) hlt2).2.1 rest r (Nat.le_refl _) hwf2
        refine ⟨⟨b1, t⟩ :: cs, by simp [resolve_types, h1, h2], ?_⟩
        simp only [rebuildTypes, SType.validation] at hrb ⊢
        simp [hrb]
    · intro fields r hsz hwf
      match fields with
      | [] => simp [resolve_fields]
      | Field.mk _ none _ _ :: _ => simp [concreteWFFields] at hwf
      | Field.mk _ (some (SType.mk none _)) _ _ :: _ => simp [concreteWFFields] at hwf
      | Field.mk nm (some (SType.mk (some t) v)) opt w :: rest =>
        have hwf1 : concreteWF t = true := by
          have := hwf
          simp [concreteWFFields, Bool.and_eq_true] at this
          exact this.1
        have hwf2 : concreteWFFields rest = true := by
          have := hwf
          simp [concreteWFFields, Bool.and_eq_true] at this
          exact this.2
        have hlt1 : sizeOf t < n := by
          have : sizeOf t < sizeOf (Field.mk nm (some (SType.mk (some t) v)) opt w :: rest) := by
            simp <;> omega
          omega
        have hlt2 : sizeOf rest < n := by
          have : sizeOf rest < sizeOf (Field.mk nm (some (SType.mk (some t) v)) opt w :: rest) := by
            simp <;> omega
          omega
        obtain ⟨b1, h1⟩ := (ih (sizeOf t) hlt1).1 t r (Nat.le_refl _) hwf1
        have h2 := (ih (sizeOf rest) hlt2).2.2 rest r (Nat.le_refl _) hwf2
        simp [resolve_fields, h1, h2]

/-! ### Cyclic declaration graphs -/

/-- One declaration of a cycle: declaration `i` is a struct whose single
field `f` names declaration `j`. -/
def cycleDecl (i j : Nat) : Decl :=
  ⟨i, some ⟨some (.struct [.mk ("f") (some ⟨some (.named j []), none⟩) false none]), none⟩⟩

/-- A self-referential declaration (cycle length 1). -/
def cycleMeta1 : MetaData := ⟨[cycleDecl 0 0]⟩

/-- A cycle of length 2 through the declaration table. -/
def cycleMeta2 : MetaData := ⟨[cycleDecl 0 1, cycleDecl 1 0]⟩

/-- A cycle of length 3. -/
def cycleMeta3 : MetaData := ⟨[cycleDecl 0 1, cycleDecl 1 2, cycleDecl 2 0]⟩

/-- A cycle of length 4. -/
def cycleMeta4 : MetaData := ⟨[cycleDecl 0 1, cycleDecl 1 2, cycleDecl 2 3, cycleDecl 3 0]⟩

/-- A cycle of length 5. -/
def cycleMeta5 : MetaData :=
  ⟨[cycleDecl 0 1, cycleDecl 1 2, cycleDecl 2 3, cycleDecl 3 4, cycleDecl 4 0]⟩

/-- One struct layer of the expected resolution of a declaration cycle. -/
def wrapStruct (t : Typ) : Typ :=
  .struct [.mk ("f") (some ⟨some t, none⟩) false none]

/-- The expected result of resolving `named 0` through a cycle of the given
length: that many struct layers, with the recurring `named 0` reference left
unexpanded at the innermost point. -/
def expectedCycle : Nat → Typ
  | 0 => .named 0 []
  | n + 1 => wrapStruct (expectedCycle n)

/-- Claim C1: resolution terminates on cyclic declaration graphs. The first
conjunct is the cycle guard for every graph: a `Named` node whose
declaration id is already on the visiting stack is returned unexpanded (as a
borrowed `Cow`). The remaining conjuncts resolve cycles of lengths 1-5 and
exhibit the full result: the recurring `named 0` reference is returned
unexpanded at the point of recurrence, and resolution terminates (the
equations are theorems of a total function). -/
theorem resolve_cycle_termination :
    (∀ (r : TypeArgResolver) (id : Nat) (args : List SType) (hid : id < r.meta.decls.length),
        (r.meta.decls[id]).id ∈ r.decls →
        resolve r (Typ.named id args) = .ok ⟨true, Typ.named id args⟩) ∧
    resolve_type cycleMeta1 (Typ.named 0 []) = .ok ⟨false, expectedCycle 1⟩ ∧
    resolve_type cycleMeta2 (Typ.named 0 []) = .ok ⟨false, expectedCycle 2⟩ ∧
    resolve_type cycleMeta3 (Typ.named 0 []) = .ok ⟨false, expectedCycle 3⟩ ∧
    resolve_type cycleMeta4 (Typ.named 0 []) = .ok ⟨false, expectedCycle 4⟩ ∧
    resolve_type cycleMeta5 (Typ.named 0 []) = .ok ⟨false, expectedCycle 5⟩ := by
  refine ⟨?_, ?_, ?_, ?_, ?_, ?_⟩
  · intro r id args hid hmem
    simp only [resolve]
    rw [dif_pos hid, if_pos hmem]
  all_goals
    simp [resolve_type, resolve, resolve_fields, resolve_types, cycleMeta1, cycleMeta2,
      cycleMeta3, cycleMeta4, cycleMeta5, cycleDecl, expectedCycle, wrapStruct]

/-- Claim C6 (counterexample): resolving a `TypeParameter` whose index is out
of range of the binding context does not produce an error result — it is the
out-of-bounds panic of `self.resolved_args[idx]`, which is not an error
result like the malformed-metadata failures. -/
theorem type_parameter_oob_cex :
    resolve ⟨⟨[]⟩, [], []⟩ (Typ.type_parameter 0) = .error (.panicked ("index out of bounds")) ∧
    ∀ msg, RErr.panicked ("index out of bounds") ≠ RErr.err msg := by
  constructor
  · simp [resolve]
  · intro msg
    simp

/-- Claim C6 (amended): an out-of-range `TypeParameter` index makes `resolve`
panic with an index-out-of-bounds (a fatal failure, but a panic rather than a
returned error result). -/
theorem type_parameter_oob (r : TypeArgResolver) (idx : Nat)
    (h : r.resolved_args.length ≤ idx) :
    resolve r (Typ.type_parameter idx) = .error (.panicked ("index out of bounds")) := by
  simp only [resolve]
  rw [List.getElem?_eq_none h]

/-- Witness for `type_parameter_oob` at the empty binding context. -/
theorem type_parameter_oob_witness :
    (⟨⟨[]⟩, [], []⟩ : TypeArgResolver).resolved_args.length ≤ 2 ∧
    resolve ⟨⟨[]⟩, [], []⟩ (Typ.type_parameter 2) =
      .error (.panicked ("index out of bounds")) :=
  ⟨by simp, type_parameter_oob ⟨⟨[]⟩, [], []⟩ 2 (by simp)⟩

/-- Claim C7: a `Config` type is never silently dropped — reaching it fails
the whole resolution with the unsupported-type error. The three conjuncts
state it for `resolve` on the node itself, for `compute` on a `Config`-typed
payload, and for `compute` on a struct whose field is `Config`-typed (with
arbitrary further fields). -/
theorem config_unsupported :
    (∀ (r : TypeArgResolver) (k : Nat),
        resolve r (Typ.config k) = .error (.err ("config types are not supported"))) ∧
    (∀ (cfg : EncodingConfig) (b : Builder) (v : Option Nat) (k : Nat),
        compute cfg b ⟨some (.config k), v⟩ =
          .error (.err ("config types are not supported"))) ∧
    (∀ (cfg : EncodingConfig) (b : Builder) (v v2 : Option Nat) (nm : String) (opt : Bool)
        (w : Option WireSpec) (k : Nat) (rest : List Field),
        compute cfg b ⟨some (.struct (Field.mk nm (some ⟨some (.config k), v2⟩) opt w :: rest)),
            v⟩ =
          .error (.err ("config types are not supported"))) := by
  refine ⟨?_, ?_, ?_⟩
  · intro r k
    simp [resolve]
  · intro cfg b v k
    simp [compute, SType.typ, resolve_type, resolve]
  · intro cfg b v v2 nm opt w k rest
    simp [compute, SType.typ, resolve_type, resolve, resolve_fields]

/-- Claim C9 (counterexample): a pointer over a builtin contains no `Named`
and no `TypeParameter` node, yet `resolve` succeeds with a tree of a
different shape — the pointer wrapper is discarded. -/
theorem resolve_pointer_cex :
    resolve_type ⟨[]⟩ (Typ.pointer (some ⟨some (.builtin 0), none⟩)) =
      .ok ⟨true, Typ.builtin 0⟩ ∧
    Typ.builtin 0 ≠ Typ.pointer (some ⟨some (.builtin 0), none⟩) := by
  constructor
  · simp [resolve_type, resolve]
  · simp

/-- Claim C9 (amended): on a well-formed tree with no `Named`,
`TypeParameter`, `Pointer` or `Config` node (`concreteWF`), resolution
succeeds and returns a tree structurally equal to the input. -/
theorem resolve_concrete_identity (meta : MetaData) (args : List CowTyp)
    (visiting : List Nat) (typ : Typ) (h : concreteWF typ = true) :
    ∃ bb, resolve ⟨meta, args, visiting⟩ typ = .ok ⟨bb, typ⟩ :=
  (resolve_concrete_aux (sizeOf typ)).1 typ ⟨meta, args, visiting⟩ (Nat.le_refl _) h

/-- Witness for `resolve_concrete_identity` on a map from a builtin to a
struct of one literal field. -/
theorem resolve_concrete_identity_witness :
    concreteWF (Typ.map (some ⟨some (.builtin 0), none⟩)
      (some ⟨some (.struct [.mk ("x") (some ⟨some (.literal 7), none⟩) false none]), none⟩))
      = true ∧
    ∃ bb, resolve ⟨⟨[]⟩, [], []⟩
      (Typ.map (some ⟨some (.builtin 0), none⟩)
        (some ⟨some (.struct [.mk ("x") (some ⟨some (.literal 7), none⟩) false none]), none⟩)) =
      .ok ⟨bb, Typ.map (some ⟨some (.builtin 0), none⟩)
        (some ⟨some (.struct [.mk ("x") (some ⟨some (.literal 7), none⟩) false none]), none⟩)⟩ :=
  ⟨by simp [concreteWF, concreteWFFields],
   resolve_concrete_identity ⟨[]⟩ [] [] _ (by simp [concreteWF, concreteWFFields])⟩

/-- Claim C10: a `Named` node whose declaration id is out of the table's
range is not a returned `MalformedMetadata` error — the table is indexed
directly, a panic; resolution is defined only under the in-range hypothesis. -/
theorem named_decl_oob (r : TypeArgResolver) (id : Nat) (args : List SType)
    (h : r.meta.decls.length ≤ id) :
    resolve r (Typ.named id args) = .error (.panicked ("index out of bounds")) ∧
    ∀ msg, RErr.panicked ("index out of bounds") ≠ RErr.err msg := by
  constructor
  · simp only [resolve]
    rw [dif_neg (Nat.not_lt.mpr h)]
  · intro msg
    simp

/-- Witness for `named_decl_oob` on the empty declaration table. -/
theorem named_decl_oob_witness :
    (⟨⟨[]⟩, [], []⟩ : TypeArgResolver).meta.decls.length ≤ 0 ∧
    (resolve ⟨⟨[]⟩, [], []⟩ (Typ.named 0 []) = .error (.panicked ("index out of bounds")) ∧
     ∀ msg, RErr.panicked ("index out of bounds") ≠ RErr.err msg) :=
  ⟨by simp, named_decl_oob ⟨⟨[]⟩, [], []⟩ 0 [] (by simp)⟩

/-- Claim C8: a field with no explicit wire spec fails with the
missing-location error naming the field when the context has no default
location; a field with an explicit location never does. Stated for one loop
iteration (`computeField`), its converse, and for `compute` on a
one-field struct. -/
theorem missing_location :
    (∀ (cfg : EncodingConfig) (g : Groups) (f : Field),
        cfg.default_loc = none → f.wire.bind WireSpec.location = none →
        computeField cfg g f = .error (.err ("no location defined for field " ++ f.name))) ∧
    (∀ (cfg : EncodingConfig) (g : Groups) (f : Field) (l : Location),
        f.wire.bind WireSpec.location = some l → ∃ g', computeField cfg g f = .ok g') ∧
    (∀ (cfg : EncodingConfig) (b : Builder) (nm : String) (opt : Bool) (bi : Nat)
        (v v2 : Option Nat),
        cfg.default_loc = none → cfg.rpc_path = none →
        compute cfg b ⟨some (.struct [Field.mk nm (some ⟨some (.builtin bi), v2⟩) opt none]),
            v⟩ =
          .error (.err ("no location defined for field " ++ nm))) := by
  refine ⟨?_, ?_, ?_⟩
  · intro cfg g f h1 h2
    simp [computeField, resolveWireLoc, h1, h2]
  · intro cfg g f l h
    cases l with
    | header hn => exact ⟨_, by simp [computeField, resolveWireLoc, h] <;> rfl⟩
    | query => exact ⟨_, by simp [computeField, resolveWireLoc, h] <;> rfl⟩
    | cookie cn => exact ⟨_, by simp [computeField, resolveWireLoc, h] <;> rfl⟩
  · intro cfg b nm opt bi v v2 h1 h2
    simp [compute, SType.typ, resolve_type, resolve, resolve_fields, h2, pathNamesOf,
      computeFields, computeField, resolveWireLoc, Field.wire, Field.name, h1]

lemma not_mem_nonPathNames_of_mem_pf {pf : List String} {fs : List Field} {v : String}
    (h : v ∈ pf) : v ∉ nonPathNames pf fs := by
  intro hmem
  obtain ⟨f, hf, hv⟩ := List.mem_map.mp hmem
  have hcond := List.of_mem_filter hf
  simp only [decide_eq_true_eq] at hcond
  exact hcond (hv ▸ List.elem_eq_true_of_mem h)

/-- Claim C3: a field name bound by a non-literal path segment never appears
in any produced group — combined, body, query, header or cookie — regardless
of the struct's wire specs. -/
theorem path_field_exclusion (cfg : EncodingConfig) (b : Builder) (typ : SType)
    (suc : SchemaUnderConstruction) (b2 : Builder) (p : MetaPath) (seg : PathSegment)
    (stt : SegmentType)
    (hc : compute cfg b typ = .ok (suc, b2))
    (hp : cfg.rpc_path = some p)
    (hseg : seg ∈ p.segments)
    (hst : segTypeOf seg.type = some stt)
    (hnl : stt ≠ SegmentType.literal) :
    inGroup b2 suc.combined seg.value = false ∧
    inGroup b2 suc.body seg.value = false ∧
    inGroup b2 suc.query seg.value = false ∧
    inGroup b2 suc.header seg.value = false ∧
    inGroup b2 suc.cookie seg.value = false := by
  obtain ⟨t, c, h1, h2, hcase⟩ := compute_ok_cases hc
  rcases hcase with ⟨fs, pf, g, hval, hpf, hcf, hreg⟩ | ⟨hne, rfl, rfl⟩
  · rw [hp] at hpf
    simp only [pathNamesOf] at hpf
    have hvpf : seg.value ∈ pf := pathFieldNames_complete hpf seg hseg stt hst hnl
    have hnnp : seg.value ∉ nonPathNames pf fs := not_mem_nonPathNames_of_mem_pf hvpf
    obtain ⟨hsubc, hsubs⟩ := computeFields_subset hcf
    obtain ⟨hgc, hgb, hgq, hgh, hgk, _⟩ := registerGroups_spec b cfg.rpc_path g hreg
    have hnc : seg.value ∉ g.combined.keys := by
      intro hmem
      rcases hsubc _ hmem with hmem0 | hmem1
      · simp [JStruct.keys] at hmem0
      · exact hnnp hmem1
    have hnk : ∀ k : GKind, seg.value ∉ keysO (selKind g k) := by
      intro k hmem
      rcases hsubs k _ hmem with hmem0 | hmem1
      · cases k <;> simp [selKind, keysO] at hmem0
      · exact hnnp hmem1
    refine ⟨?_, ?_, ?_, ?_, ?_⟩
    · rw [Bool.eq_false_iff]
      intro htrue
      exact hnc (hgc ▸ inGroup_eq_true_iff.mp htrue)
    · rw [Bool.eq_false_iff]
      intro htrue
      exact hnk GKind.body (hgb ▸ inGroup_eq_true_iff.mp htrue)
    · rw [Bool.eq_false_iff]
      intro htrue
      exact hnk GKind.query (hgq ▸ inGroup_eq_true_iff.mp htrue)
    · rw [Bool.eq_false_iff]
      intro htrue
      exact hnk GKind.header (hgh ▸ inGroup_eq_true_iff.mp htrue)
    · rw [Bool.eq_false_iff]
      intro htrue
      exact hnk GKind.cookie (hgk ▸ inGroup_eq_true_iff.mp htrue)
  · simp [inGroup, groupKeysList]

/-! ### Concrete inputs for the partition claims -/

/-- A path-bound field with an explicit header spec (skipped regardless). -/
def wfId : Field := .mk ("id") (some ⟨some (.builtin 0), none⟩) false
  (some ⟨some (.header (some ("X-Id")))⟩)

/-- An unannotated non-path field. -/
def wfX : Field := .mk ("x") (some ⟨some (.builtin 1), none⟩) false none

/-- A path template with a `Param` segment `id` and a literal segment. -/
def wPath : MetaPath := ⟨[⟨"id", 1, 0, none⟩, ⟨"lit", 0, 0, none⟩], 0⟩

/-- A query-defaulting context carrying `wPath`. -/
def wCfg : EncodingConfig := ⟨⟨[]⟩, some DefaultLoc.Query, some wPath, true, true, true, true⟩

/-- The struct of `wfId` and `wfX`. -/
def wTyp : SType := ⟨some (.struct [wfId, wfX]), none⟩

/-- The schema `compute wCfg [] wTyp` produces. -/
def wSuc : SchemaUnderConstruction := ⟨some 0, none, some 1, none, none, some wPath⟩

/-- The builder `compute wCfg [] wTyp` produces. -/
def wB2 : Builder := [⟨[("x", ⟨wfX, none⟩)]⟩, ⟨[("x", ⟨wfX, none⟩)]⟩]

/-- Witness for `path_field_exclusion`: the `id` field, bound by the `Param`
segment, appears in no group although it carries an explicit header spec. -/
theorem path_field_exclusion_witness :
    inGroup wB2 wSuc.combined ("id") = false ∧
    inGroup wB2 wSuc.body ("id") = false ∧
    inGroup wB2 wSuc.query ("id") = false ∧
    inGroup wB2 wSuc.header ("id") = false ∧
    inGroup wB2 wSuc.cookie ("id") = false :=
  path_field_exclusion wCfg [] wTyp wSuc wB2 wPath ⟨"id", 1, 0, none⟩ SegmentType.param
    (by simp [compute, wCfg, wTyp, wSuc, wB2, wPath, wfId, wfX, SType.typ, resolve_type,
      resolve, resolve_fields, pathNamesOf, pathFieldNames, segTypeOf, computeFields,
      computeField, resolveWireLoc, struct_field, insertField, insertOpt, Field.name,
      Field.wire, DefaultLoc.into_wire_loc, registerGroups, register_value, registerOpt])
    rfl (by simp [wPath]) (by simp [segTypeOf]) (by simp)

/-- Claim C2 (amended, with pairwise-distinct field names): the partition is
exact — `combined` holds precisely the non-path field names, and the four
location groups together hold a permutation of them: every non-path field in
exactly one group, none omitted, none duplicated. -/
theorem compute_partition (cfg : EncodingConfig) (b : Builder) (typ : SType) (t : Typ)
    (c : CowTyp) (fs : List Field) (pf : List String) (suc : SchemaUnderConstruction)
    (b2 : Builder)
    (ht : typ.typ = some t)
    (hr : resolve_type cfg.meta t = .ok c)
    (hst : c.val = Typ.struct fs)
    (hpf : pathNamesOf cfg.rpc_path = .ok pf)
    (hnd : (fs.map Field.name).Nodup)
    (hc : compute cfg b typ = .ok (suc, b2)) :
    groupKeysList b2 suc.combined = nonPathNames pf fs ∧
    (groupKeysList b2 suc.body ++ groupKeysList b2 suc.query ++
      groupKeysList b2 suc.header ++ groupKeysList b2 suc.cookie).Perm
      (nonPathNames pf fs) ∧
    (groupKeysList b2 suc.body ++ groupKeysList b2 suc.query ++
      groupKeysList b2 suc.header ++ groupKeysList b2 suc.cookie).length =
      (fs.filter (fun f => ¬ pf.contains f.name)).length ∧
    (groupKeysList b2 suc.body ++ groupKeysList b2 suc.query ++
      groupKeysList b2 suc.header ++ groupKeysList b2 suc.cookie).Nodup := by
  obtain ⟨t', c', h1, h2, hcase⟩ := compute_ok_cases hc
  rw [ht] at h1
  injection h1 with h1
  subst h1
  rw [hr] at h2
  injection h2 with h2
  subst h2
  rcases hcase with ⟨fs', pf', g, hval, hpf', hcf, hreg⟩ | ⟨hne, _, _⟩
  · rw [hst] at hval
    injection hval with hval
    subst hval
    rw [hpf] at hpf'
    injection hpf' with hpf'
    subst hpf'
    have hndnp : (nonPathNames pf fs).Nodup := by
      refine List.Nodup.sublist ?_ hnd
      exact List.Sublist.map Field.name (List.filter_sublist fs)
    obtain ⟨hcomb, hperm⟩ := computeFields_partition hcf
      (by simpa [JStruct.keys] using hndnp)
      (by intro n hn; simp [fourConcat, keysO] at hn)
    obtain ⟨hgc, hgb, hgq, hgh, hgk, _⟩ := registerGroups_spec b cfg.rpc_path g hreg
    have hfour : groupKeysList b2 suc.body ++ groupKeysList b2 suc.query ++
        groupKeysList b2 suc.header ++ groupKeysList b2 suc.cookie = fourConcat g := by
      rw [hgb, hgq, hgh, hgk]
      rfl
    have hperm2 : (groupKeysList b2 suc.body ++ groupKeysList b2 suc.query ++
        groupKeysList b2 suc.header ++ groupKeysList b2 suc.cookie).Perm
        (nonPathNames pf fs) := by
      rw [hfour]
      simpa [fourConcat, keysO] using hperm
    refine ⟨?_, hperm2, ?_, ?_⟩
    · rw [hgc, hcomb]
      simp [JStruct.keys]
    · rw [hperm2.length_eq]
      simp [nonPathNames]
    · exact (hperm2.nodup_iff).mpr hndnp
  · exact absurd hst (hne fs)

/-- The two same-named unannotated fields of the C2 counterexample. -/
def dupFields : List Field :=
  [.mk ("a") (some ⟨some (.builtin 0), none⟩) false none,
   .mk ("a") (some ⟨some (.builtin 1), none⟩) false none]

/-- A body-defaulting context with no path. -/
def dupCfg : EncodingConfig := ⟨⟨[]⟩, some DefaultLoc.Body, none, true, true, true, true⟩

/-- The struct of the two same-named fields. -/
def dupTyp : SType := ⟨some (.struct dupFields), none⟩

/-- The second (winning) field of the duplicate pair. -/
def dupF2 : Field := .mk ("a") (some ⟨some (.builtin 1), none⟩) false none

/-- The schema produced for the duplicate-name struct. -/
def dupSuc : SchemaUnderConstruction := ⟨some 0, some 1, none, none, none, none⟩

/-- The builder produced for the duplicate-name struct. -/
def dupB2 : Builder := [⟨[("a", ⟨dupF2, none⟩)]⟩, ⟨[("a", ⟨dupF2, none⟩)]⟩]

/-- Claim C2 (counterexample): a struct that `compute` partitions with two
non-path fields (of the same name) produces only one field across the body,
query, header and cookie groups — the map insert collapses the duplicate —
refuting the exact-N count as claimed. -/
theorem compute_partition_cex :
    compute dupCfg [] dupTyp = .ok (dupSuc, dupB2) ∧
    (dupFields.filter (fun f => ¬ ([] : List String).contains f.name)).length = 2 ∧
    (groupKeysList dupB2 dupSuc.body ++ groupKeysList dupB2 dupSuc.query ++
      groupKeysList dupB2 dupSuc.header ++ groupKeysList dupB2 dupSuc.cookie).length = 1 := by
  refine ⟨?_, by simp [dupFields, Field.name], by simp [dupB2, dupSuc, groupKeysList,
    JStruct.keys]⟩
  simp [compute, dupCfg, dupTyp, dupFields, dupSuc, dupB2, dupF2, SType.typ, resolve_type,
    resolve, resolve_fields, pathNamesOf, computeFields, computeField, resolveWireLoc,
    struct_field, insertField, insertOpt, Field.name, Field.wire,
    DefaultLoc.into_wire_loc, registerGroups, register_value, registerOpt]

/-- An unannotated field `a`. -/
def wpFa : Field := .mk ("a") (some ⟨some (.builtin 0), none⟩) false none

/-- A header-annotated field `h`. -/
def wpFh : Field := .mk ("h") (some ⟨some (.builtin 1), none⟩) false
  (some ⟨some (.header (some ("X-Foo")))⟩)

/-- The two fields of the partition witness. -/
def wpFields : List Field := [wpFa, wpFh]

/-- A body-defaulting context with no path. -/
def wpCfg : EncodingConfig := ⟨⟨[]⟩, some DefaultLoc.Body, none, true, true, true, true⟩

/-- The struct of `wpFields`. -/
def wpTyp : SType := ⟨some (.struct wpFields), none⟩

/-- The schema of the partition witness. -/
def wpSuc : SchemaUnderConstruction := ⟨some 0, some 1, none, some 2, none, none⟩

/-- The builder of the partition witness. -/
def wpB2 : Builder :=
  [⟨[("a", ⟨wpFa, none⟩), ("h", ⟨wpFh, none⟩)]⟩,
   ⟨[("a", ⟨wpFa, none⟩)]⟩,
   ⟨[("h", ⟨wpFh, some ("X-Foo")⟩)]⟩]

/-- Witness for `compute_partition` on a two-field struct (one unannotated,
one header-annotated) with no path. -/
theorem compute_partition_witness :
    groupKeysList wpB2 wpSuc.combined = nonPathNames [] wpFields ∧
    (groupKeysList wpB2 wpSuc.body ++ groupKeysList wpB2 wpSuc.query ++
      groupKeysList wpB2 wpSuc.header ++ groupKeysList wpB2 wpSuc.cookie).Perm
      (nonPathNames [] wpFields) ∧
    (groupKeysList wpB2 wpSuc.body ++ groupKeysList wpB2 wpSuc.query ++
      groupKeysList wpB2 wpSuc.header ++ groupKeysList wpB2 wpSuc.cookie).length =
      (wpFields.filter (fun f => ¬ ([] : List String).contains f.name)).length ∧
    (groupKeysList wpB2 wpSuc.body ++ groupKeysList wpB2 wpSuc.query ++
      groupKeysList wpB2 wpSuc.header ++ groupKeysList wpB2 wpSuc.cookie).Nodup :=
  compute_partition wpCfg [] wpTyp (.struct wpFields) ⟨false, .struct wpFields⟩ wpFields []
    wpSuc wpB2 rfl
    (by simp [wpFields, wpFa, wpFh, resolve_type, resolve, resolve_fields])
    rfl rfl
    (by simp [wpFields, wpFa, wpFh, Field.name])
    (by simp [compute, wpCfg, wpTyp, wpFields, wpFa, wpFh, wpSuc, wpB2, SType.typ, resolve_type,
      resolve, resolve_fields, pathNamesOf, computeFields, computeField, resolveWireLoc,
      struct_field, insertField, insertOpt, Field.name, Field.wire,
      DefaultLoc.into_wire_loc, registerGroups, register_value, registerOpt])

/-- Claim C5 (amended): a streaming-request endpoint with a declared request
type yields exactly one schema group whatever the method list, computed by
`compute` under the streaming config (default location Body); the path part
is always empty, and the query and header parts are empty provided no field
of the resolved struct carries an explicit Query or Header wire spec. -/
theorem streaming_request_single_group (meta : MetaData) (b : Builder) (rpc : Rpc)
    (rs : SType) (schemas : List ReqSchemaUnderConstruction) (b2 : Builder)
    (h1 : rpc.streaming_request = true)
    (h2 : rpc.request_schema = some rs)
    (hre : request_encoding b meta rpc = .ok (schemas, b2)) :
    ∃ suc, schemas = [⟨[Method.GET], suc⟩] ∧
      compute (streaming_request_cfg meta) b rs = .ok (suc, b2) ∧
      (streaming_request_cfg meta).default_loc = some DefaultLoc.Body ∧
      suc.rpc_path = none ∧
      (∀ t c fs, rs.typ = some t → resolve_type meta t = .ok c → c.val = Typ.struct fs →
        (∀ f, f ∈ fs → ∀ l, f.wire.bind WireSpec.location = some l →
          l ≠ Location.query ∧ ∀ hn, l ≠ Location.header hn) →
        suc.query = none ∧ suc.header = none) := by
  unfold request_encoding at hre
  rw [if_pos (by rw [h1]; simp)] at hre
  simp only [h2] at hre
  rcases hcp : compute (streaming_request_cfg meta) b rs with e | p
  · rw [hcp] at hre
    simp at hre
  · rw [hcp] at hre
    obtain ⟨suc, b'⟩ := p
    injection hre with hre
    injection hre with hre1 hre2
    subst hre2
    refine ⟨suc, hre1.symm, rfl, rfl, ?_, ?_⟩
    · obtain ⟨t, c, k1, k2, hcase⟩ := compute_ok_cases hcp
      rcases hcase with ⟨fs, pf, g, hval, hpf, hcf, hreg⟩ | ⟨_, hsuc, _⟩
      · exact ((registerGroups_spec b _ g hreg).2.2.2.2.2.1)
      · rw [hsuc]
        simp [streaming_request_cfg]
    · intro t c fs ht hr hval hno
      obtain ⟨t', c', k1, k2, hcase⟩ := compute_ok_cases hcp
      rw [ht] at k1
      injection k1 with k1
      subst k1
      simp only [streaming_request_cfg] at k2
      rw [hr] at k2
      injection k2 with k2
      subst k2
      rcases hcase with ⟨fs', pf, g, hval', hpf, hcf, hreg⟩ | ⟨hne, hsuc, _⟩
      · rw [hval] at hval'
        injection hval' with hval'
        subst hval'
        have hnotroute : ∀ (k : GKind), (k = GKind.query ∨ k = GKind.header) →
            ∀ f, f ∈ fs → ∀ wl, resolveWireLoc (streaming_request_cfg meta) f = .ok wl →
            kindOf wl ≠ some k := by
          intro k hk f hf wl hwl
          rcases hloc : f.wire.bind WireSpec.location with _ | l
          · simp [resolveWireLoc, hloc, streaming_request_cfg,
              DefaultLoc.into_wire_loc] at hwl
            rcases hk with rfl | rfl <;> simp [← hwl, kindOf]
          · obtain ⟨hnq, hnh⟩ := hno f hf l hloc
            cases l with
            | header hn => exact absurd rfl (hnh hn)
            | query => exact absurd rfl hnq
            | cookie cn =>
              simp [resolveWireLoc, hloc] at hwl
              rcases hk with rfl | rfl <;> simp [← hwl, kindOf]
        have hgq : g.query = none := by
          have := computeFields_none hcf (hnotroute GKind.query (Or.inl rfl) · · ·) rfl
          exact this
        have hgh : g.header = none := by
          have := computeFields_none hcf (hnotroute GKind.header (Or.inr rfl) · · ·) rfl
          exact this
        obtain hspec := registerGroups_spec b _ g hreg
        exact ⟨hspec.2.2.2.2.2.2.1.mpr hgq, hspec.2.2.2.2.2.2.2.1.mpr hgh⟩
      · rw [hval] at hne
        exact absurd rfl (hne fs)

/-- The explicitly Query-annotated field of the C5 counterexample. -/
def sqField : Field := .mk ("q") (some ⟨some (.builtin 0), none⟩) false (some ⟨some .query⟩)

/-- A streaming-request endpoint declaring two HTTP methods, whose request
struct has one field explicitly annotated Query. -/
def sqRpc : Rpc :=
  ⟨"svc", "ep", ["GET", "POST"], true, false, some ⟨some (.struct [sqField]), none⟩,
   none, none, none⟩

/-- The schema produced for `sqRpc`: its query part is non-empty. -/
def sqSuc : SchemaUnderConstruction := ⟨some 0, none, some 1, none, none, none⟩

/-- The builder produced for `sqRpc`. -/
def sqB2 : Builder := [⟨[("q", ⟨sqField, none⟩)]⟩, ⟨[("q", ⟨sqField, none⟩)]⟩]

/-- Claim C5 (counterexample): a streaming-request endpoint whose declared
request struct has a field explicitly annotated Query produces a request
schema whose query part is not empty (the supports-query flag of the
streaming config is never consulted), refuting "query, header and path parts
are all empty" as claimed. -/
theorem streaming_request_cex :
    request_encoding [] ⟨[]⟩ sqRpc = .ok ([⟨[Method.GET], sqSuc⟩], sqB2) ∧
    sqSuc.query ≠ none := by
  constructor
  · simp [request_encoding, sqRpc, sqField, sqSuc, sqB2, streaming_request_cfg, compute,
      SType.typ, resolve_type, resolve, resolve_fields, pathNamesOf, computeFields,
      computeField, resolveWireLoc, struct_field, insertField, insertOpt, Field.name,
      Field.wire, registerGroups, register_value, registerOpt]
  · simp [sqSuc]

/-- The unannotated field of the C5 witness. -/
def swFa : Field := .mk ("a") (some ⟨some (.builtin 0), none⟩) false none

/-- The cookie-annotated field of the C5 witness. -/
def swFc : Field := .mk ("c") (some ⟨some (.builtin 1), none⟩) false
  (some ⟨some (.cookie none)⟩)

/-- A streaming-request endpoint with three methods and no explicit
Query/Header specs. -/
def swRpc : Rpc :=
  ⟨"svc", "ep", ["GET", "POST", "PUT"], true, false,
   some ⟨some (.struct [swFa, swFc]), none⟩, none, none, none⟩

/-- The single schema produced for `swRpc`. -/
def swSuc : SchemaUnderConstruction := ⟨some 0, some 1, none, none, some 2, none⟩

/-- The builder produced for `swRpc`. -/
def swB2 : Builder :=
  [⟨[("a", ⟨swFa, none⟩), ("c", ⟨swFc, none⟩)]⟩,
   ⟨[("a", ⟨swFa, none⟩)]⟩,
   ⟨[("c", ⟨swFc, some ("c")⟩)]⟩]

/-- Witness for `streaming_request_single_group` on `swRpc`. -/
theorem streaming_request_single_group_witness :
    ∃ suc, [(⟨[Method.GET], swSuc⟩ : ReqSchemaUnderConstruction)] = [⟨[Method.GET], suc⟩] ∧
      compute (streaming_request_cfg ⟨[]⟩) [] ⟨some (.struct [swFa, swFc]), none⟩ =
        .ok (suc, swB2) ∧
      (streaming_request_cfg ⟨[]⟩).default_loc = some DefaultLoc.Body ∧
      suc.rpc_path = none ∧
      (∀ t c fs, (⟨some (.struct [swFa, swFc]), none⟩ : SType).typ = some t →
        resolve_type ⟨[]⟩ t = .ok c → c.val = Typ.struct fs →
        (∀ f, f ∈ fs → ∀ l, f.wire.bind WireSpec.location = some l →
          l ≠ Location.query ∧ ∀ hn, l ≠ Location.header hn) →
        suc.query = none ∧ suc.header = none) :=
  streaming_request_single_group ⟨[]⟩ [] swRpc ⟨some (.struct [swFa, swFc]), none⟩
    [⟨[Method.GET], swSuc⟩] swB2 rfl rfl
    (by simp [request_encoding, swRpc, swFa, swFc, swSuc, swB2, streaming_request_cfg,
      compute, SType.typ, resolve_type, resolve, resolve_fields, pathNamesOf,
      computeFields, computeField, resolveWireLoc, struct_field, insertField, insertOpt,
      Field.name, Field.wire, DefaultLoc.into_wire_loc, registerGroups, register_value,
      registerOpt])

/-- Claim C4: a non-streaming endpoint with methods GET and POST and a
declared request type yields exactly two schema groups, one per method; in
the GET group an unannotated non-path field lands in Query, in the POST group
in Body, and a field explicitly annotated Header lands in Header in both. -/
theorem request_encoding_get_post (meta : MetaData) (b : Builder) (rpc : Rpc) (ts : SType)
    (t : Typ) (c : CowTyp) (fs : List Field) (pfl : List String)
    (schemas : List ReqSchemaUnderConstruction) (b2 : Builder) (f : Field)
    (h1 : rpc.streaming_request = false)
    (h2 : rpc.streaming_response = false)
    (h3 : rpc.http_methods = ["GET", "POST"])
    (h4 : rpc.request_schema = some ts)
    (h5 : ts.typ = some t)
    (h6 : resolve_type meta t = .ok c)
    (h7 : c.val = Typ.struct fs)
    (h8 : pathNamesOf (some (rpc.path.getD (default_rpc_path rpc))) = .ok pfl)
    (h9 : f ∈ fs)
    (h10 : pfl.contains f.name = false)
    (hre : request_encoding b meta rpc = .ok (schemas, b2)) :
    schemas.length = 2 ∧
    (∃ s, s ∈ schemas ∧ s.methods = [Method.GET]) ∧
    (∃ s, s ∈ schemas ∧ s.methods = [Method.POST]) ∧
    (∀ s, s ∈ schemas → s.methods = [Method.GET] →
      (f.wire.bind WireSpec.location = none → inGroup b2 s.schema.query f.name = true) ∧
      (∀ hn, f.wire.bind WireSpec.location = some (Location.header hn) →
        inGroup b2 s.schema.header f.name = true)) ∧
    (∀ s, s ∈ schemas → s.methods = [Method.POST] →
      (f.wire.bind WireSpec.location = none → inGroup b2 s.schema.body f.name = true) ∧
      (∀ hn, f.wire.bind WireSpec.location = some (Location.header hn) →
        inGroup b2 s.schema.header f.name = true)) := by
  unfold request_encoding at hre
  rw [if_neg (by rw [h1, h2]; simp)] at hre
  have hpm : parse_methods ["GET", "POST"] = .ok [Method.GET, Method.POST] := by
    simp [parse_methods, Method.try_from]
  have hsplit : split_by_loc [Method.GET, Method.POST] =
      [(DefaultLoc.Query, [Method.GET]), (DefaultLoc.Body, [Method.POST])] := by
    simp [split_by_loc, pushMethod, Method.supports_body]
  simp only [h3, hpm, h4] at hre
  rw [hsplit] at hre
  simp only [encodeGroups] at hre
  rcases hc1 : compute (request_cfg meta DefaultLoc.Query
      (rpc.path.getD (default_rpc_path rpc))) b ts with e | p1
  · rw [hc1] at hre
    simp at hre
  · obtain ⟨s1, b1⟩ := p1
    simp only [hc1] at hre
    rcases hc2 : compute (request_cfg meta DefaultLoc.Body
        (rpc.path.getD (default_rpc_path rpc))) b1 ts with e | p2
    · rw [hc2] at hre
      simp at hre
    · obtain ⟨s2, b2'⟩ := p2
      simp only [hc2] at hre
      injection hre with hre
      injection hre with hre1 hre2
      subst hre2
      subst hre1
      -- placements of the Query-group schema
      obtain ⟨t', c', k1, k2, hcase1⟩ := compute_ok_cases hc1
      rw [h5] at k1
      injection k1 with k1
      subst k1
      simp only [request_cfg] at k2
      rw [h6] at k2
      injection k2 with k2
      subst k2
      rcases hcase1 with ⟨fs1, pf1, g1, hval1, hpf1, hcf1, hreg1⟩ | ⟨hne1, _, _⟩
      swap
      · exact absurd h7 (hne1 fs)
      rw [h7] at hval1
      injection hval1 with hval1
      subst hval1
      simp only [request_cfg] at hpf1
      rw [h8] at hpf1
      injection hpf1 with hpf1
      subst hpf1
      obtain hspec1 := registerGroups_spec b _ g1 hreg1
      obtain ⟨l2, hb2⟩ := compute_extends hc2
      subst hb2
      -- placements of the Body-group schema
      obtain ⟨t', c', k1, k2, hcase2⟩ := compute_ok_cases hc2
      rw [h5] at k1
      injection k1 with k1
      subst k1
      simp only [request_cfg] at k2
      rw [h6] at k2
      injection k2 with k2
      subst k2
      rcases hcase2 with ⟨fs2, pf2, g2, hval2, hpf2, hcf2, hreg2⟩ | ⟨hne2, _, _⟩
      swap
      · exact absurd h7 (hne2 fs)
      rw [h7] at hval2
      injection hval2 with hval2
      subst hval2
      simp only [request_cfg] at hpf2
      rw [h8] at hpf2
      injection hpf2 with hpf2
      subst hpf2
      obtain hspec2 := registerGroups_spec b1 _ g2 hreg2
      -- the two groups and their placements
      have hget1 : ∀ (wl : WireLoc) (k : GKind),
          resolveWireLoc (request_cfg meta DefaultLoc.Query
            (rpc.path.getD (default_rpc_path rpc))) f = .ok wl →
          kindOf wl = some k → f.name ∈ keysO (selKind g1 k) :=
        fun wl k hwl hk => computeFields_mem hcf1 h9 h10 hwl hk
      have hget2 : ∀ (wl : WireLoc) (k : GKind),
          resolveWireLoc (request_cfg meta DefaultLoc.Body
            (rpc.path.getD (default_rpc_path rpc))) f = .ok wl →
          kindOf wl = some k → f.name ∈ keysO (selKind g2 k) :=
        fun wl k hwl hk => computeFields_mem hcf2 h9 h10 hwl hk
      refine ⟨by simp, ⟨⟨[Method.GET], s1⟩, by simp, rfl⟩,
        ⟨⟨[Method.POST], s2⟩, by simp, rfl⟩, ?_, ?_⟩
      · intro s hs hm
        rcases List.mem_cons.mp hs with rfl | hs2
        · constructor
          · intro hnone
            have hwl : resolveWireLoc (request_cfg meta DefaultLoc.Query
                (rpc.path.getD (default_rpc_path rpc))) f = .ok WireLoc.query := by
              simp [resolveWireLoc, hnone, request_cfg, DefaultLoc.into_wire_loc]
            have hmem : f.name ∈ keysO g1.query := hget1 WireLoc.query GKind.query hwl rfl
            rw [← hspec1.2.2.1] at hmem
            exact inGroup_extend (inGroup_eq_true_iff.mpr hmem)
          · intro hn hheader
            have hwl : resolveWireLoc (request_cfg meta DefaultLoc.Query
                (rpc.path.getD (default_rpc_path rpc))) f = .ok
                (WireLoc.header (hn.getD f.name)) := by
              simp [resolveWireLoc, hheader]
            have hmem : f.name ∈ keysO g1.header :=
              hget1 (WireLoc.header (hn.getD f.name)) GKind.header hwl rfl
            rw [← hspec1.2.2.2.1] at hmem
            exact inGroup_extend (inGroup_eq_true_iff.mpr hmem)
        · rcases List.mem_cons.mp hs2 with rfl | hs3
          · simp at hm
          · exact absurd hs3 (List.not_mem_nil s)
      · intro s hs hm
        rcases List.mem_cons.mp hs with rfl | hs2
        · simp at hm
        · rcases List.mem_cons.mp hs2 with rfl | hs3
          · constructor
            · intro hnone
              have hwl : resolveWireLoc (request_cfg meta DefaultLoc.Body
                  (rpc.path.getD (default_rpc_path rpc))) f = .ok WireLoc.body := by
                simp [resolveWireLoc, hnone, request_cfg, DefaultLoc.into_wire_loc]
              have hmem : f.name ∈ keysO g2.body := hget2 WireLoc.body GKind.body hwl rfl
              rw [← hspec2.2.1] at hmem
              exact inGroup_eq_true_iff.mpr hmem
            · intro hn hheader
              have hwl : resolveWireLoc (request_cfg meta DefaultLoc.Body
                  (rpc.path.getD (default_rpc_path rpc))) f = .ok
                  (WireLoc.header (hn.getD f.name)) := by
                simp [resolveWireLoc, hheader]
              have hmem : f.name ∈ keysO g2.header :=
                hget2 (WireLoc.header (hn.getD f.name)) GKind.header hwl rfl
              rw [← hspec2.2.2.2.1] at hmem
              exact inGroup_eq_true_iff.mpr hmem
          · exact absurd hs3 (List.not_mem_nil s)

/-- The request struct of the C4 witness: unannotated `a`, header-annotated
`h`. -/
def gpTs : SType := ⟨some (.struct [wpFa, wpFh]), none⟩

/-- The GET+POST endpoint of the C4 witness. -/
def gpRpc : Rpc := ⟨"svc", "ep", ["GET", "POST"], false, false, some gpTs, none, none, none⟩

/-- The synthetic literal path of `gpRpc`. -/
def gpPath : MetaPath := ⟨[⟨"svc.ep", 0, 0, none⟩], 0⟩

/-- The GET-group schema of the C4 witness. -/
def gpS1 : SchemaUnderConstruction := ⟨some 0, none, some 1, some 2, none, some gpPath⟩

/-- The POST-group schema of the C4 witness. -/
def gpS2 : SchemaUnderConstruction := ⟨some 3, some 4, none, some 5, none, some gpPath⟩

/-- The builder of the C4 witness. -/
def gpB2 : Builder :=
  [⟨[("a", ⟨wpFa, none⟩), ("h", ⟨wpFh, none⟩)]⟩,
   ⟨[("a", ⟨wpFa, none⟩)]⟩,
   ⟨[("h", ⟨wpFh, some ("X-Foo")⟩)]⟩,
   ⟨[("a", ⟨wpFa, none⟩), ("h", ⟨wpFh, none⟩)]⟩,
   ⟨[("a", ⟨wpFa, none⟩)]⟩,
   ⟨[("h", ⟨wpFh, some ("X-Foo")⟩)]⟩]

/-- Witness for `request_encoding_get_post` on `gpRpc` and the unannotated
field `a`. -/
theorem request_encoding_get_post_witness :
    ([⟨[Method.GET], gpS1⟩, ⟨[Method.POST], gpS2⟩] :
      List ReqSchemaUnderConstruction).length = 2 ∧
    (∃ s, s ∈ ([⟨[Method.GET], gpS1⟩, ⟨[Method.POST], gpS2⟩] :
      List ReqSchemaUnderConstruction) ∧ s.methods = [Method.GET]) ∧
    (∃ s, s ∈ ([⟨[Method.GET], gpS1⟩, ⟨[Method.POST], gpS2⟩] :
      List ReqSchemaUnderConstruction) ∧ s.methods = [Method.POST]) ∧
    (∀ s, s ∈ ([⟨[Method.GET], gpS1⟩, ⟨[Method.POST], gpS2⟩] :
        List ReqSchemaUnderConstruction) → s.methods = [Method.GET] →
      (wpFa.wire.bind WireSpec.location = none →
        inGroup gpB2 s.schema.query wpFa.name = true) ∧
      (∀ hn, wpFa.wire.bind WireSpec.location = some (Location.header hn) →
        inGroup gpB2 s.schema.header wpFa.name = true)) ∧
    (∀ s, s ∈ ([⟨[Method.GET], gpS1⟩, ⟨[Method.POST], gpS2⟩] :
        List ReqSchemaUnderConstruction) → s.methods = [Method.POST] →
      (wpFa.wire.bind WireSpec.location = none →
        inGroup gpB2 s.schema.body wpFa.name = true) ∧
      (∀ hn, wpFa.wire.bind WireSpec.location = some (Location.header hn) →
        inGroup gpB2 s.schema.header wpFa.name = true)) :=
  request_encoding_get_post ⟨[]⟩ [] gpRpc gpTs (.struct [wpFa, wpFh])
    ⟨false, .struct [wpFa, wpFh]⟩ [wpFa, wpFh] []
    [⟨[Method.GET], gpS1⟩, ⟨[Method.POST], gpS2⟩] gpB2 wpFa
    rfl rfl rfl rfl
    (by simp [gpTs, SType.typ])
    (by simp [wpFa, wpFh, resolve_type, resolve, resolve_fields])
    rfl
    (by simp [gpRpc, default_rpc_path, pathNamesOf, pathFieldNames, segTypeOf, segLiteralN,
      paramTypeStringN, pathTypeUrlN])
    (by simp)
    (by simp [wpFa, Field.name])
    (by simp [request_encoding, gpRpc, gpTs, gpPath, gpS1, gpS2, gpB2, wpFa, wpFh,
      parse_methods, Method.try_from, split_by_loc, pushMethod, Method.supports_body,
      default_rpc_path, segLiteralN, paramTypeStringN, pathTypeUrlN, encodeGroups,
      request_cfg, compute, SType.typ, resolve_type, resolve, resolve_fields, pathNamesOf,
      pathFieldNames, segTypeOf, computeFields, computeField, resolveWireLoc, struct_field,
      insertField, insertOpt, Field.name, Field.wire, DefaultLoc.into_wire_loc,
      registerGroups, register_value, registerOpt])

end Encore
